import Mathlib

/-!
SQL interview-prep plan service: parser, generator, controller.

A shallow embedding of `server/utils/aiGenerator.js` and
`server/controllers/sqlPrepController.js`.

* JavaScript strings are lists of characters (`Text`). The pattern has no `u` flag and
  walks over UTF-16 code units, but each lazy `.*?` starts after white space or a star
  and must be followed by white space, a star or the end of the text, so no capture
  starts or ends inside a surrogate pair and matching character by character gives the
  same captures.
* The regular expression `markdownRegex` is embedded as a syntax tree and run by a
  backtracking matcher with the priorities of ECMAScript (greedy and lazy
  quantifiers, capture groups, lookahead, end-of-input assertion).
* The `while (exec …)` loop of `parseAIPlan` is a fuelled loop; running out of fuel
  is `none`.
-/

namespace SQLPrep

/-- A JavaScript string as the list of its characters. -/
abbrev Text := List Char

/-! ## Character classes -/

/-- ECMAScript white space and line terminators: the set matched by `\s` and removed
by `String.prototype.trim`. -/
def isSpace (c : Char) : Bool :=
  let n := c.toNat
  n == 9 || n == 10 || n == 11 || n == 12 || n == 13 || n == 32 || n == 160 ||
  n == 5760 || (8192 ≤ n && n ≤ 8202) || n == 8232 || n == 8233 || n == 8239 ||
  n == 8287 || n == 12288 || n == 65279

/-- The class `\d` (without the `u` and `i` flags): ASCII digits. -/
def isDigit (c : Char) : Bool :=
  48 ≤ c.toNat && c.toNat ≤ 57

/-- The character classes used by `markdownRegex`. -/
inductive CharClass where
  | digit
  | space
  | any
  deriving DecidableEq, Repr

/-- Membership test of a class; `.` matches every code unit because of the `s` flag. -/
def CharClass.test : CharClass → Char → Bool
  | .digit, c => isDigit c
  | .space, c => isSpace c
  | .any, _ => true

/-! ## Regular expressions and the backtracking matcher -/

/-- Syntax of the regular expressions needed for `markdownRegex`. Quantifiers are
applied to single-character atoms only, as in the source pattern. -/
inductive Regex where
  | eps
  | char (c : Char)
  | cls (k : CharClass)
  | star (k : CharClass)
  | lazyStar (k : CharClass)
  | seq (a b : Regex)
  | alt (a b : Regex)
  | group (i : Nat) (r : Regex)
  | look (r : Regex)
  | eos
  deriving Repr

/-- Capture-group contents, indexed by group number. -/
abbrev Caps := List Text

/-- Result of a match: the input left after the match, and the captures. -/
abbrev MatchResult := Text × Caps

/-- A matcher continuation. -/
abbrev Cont := Text → Caps → Option MatchResult

/-- The continuation that accepts. -/
def accept : Cont := fun s caps => some (s, caps)

/-- Greedy `x*` over a character class: take as many characters as possible, give
them back one at a time while the continuation fails. -/
def starGreedy (p : Char → Bool) : Text → Caps → Cont → Option MatchResult
  | [], caps, k => k [] caps
  | c :: cs, caps, k =>
    if p c then
      match starGreedy p cs caps k with
      | some r => some r
      | none => k (c :: cs) caps
    else k (c :: cs) caps

/-- Lazy `x*?` over a character class: try the continuation first, take one more
character only when it fails. -/
def starLazy (p : Char → Bool) : Text → Caps → Cont → Option MatchResult
  | [], caps, k => k [] caps
  | c :: cs, caps, k =>
    match k (c :: cs) caps with
    | some r => some r
    | none => if p c then starLazy p cs caps k else none

/-- Backtracking matcher in continuation-passing style. `r.run s caps k` matches `r`
at the front of `s` and passes the remaining input and the captures to `k`; when `k`
fails the matcher backtracks into `r`. -/
def Regex.run : Regex → Text → Caps → Cont → Option MatchResult
  | .eps, s, caps, k => k s caps
  | .char c, s, caps, k =>
    match s with
    | d :: ds => if d = c then k ds caps else none
    | [] => none
  | .cls cl, s, caps, k =>
    match s with
    | d :: ds => if cl.test d then k ds caps else none
    | [] => none
  | .star cl, s, caps, k => starGreedy cl.test s caps k
  | .lazyStar cl, s, caps, k => starLazy cl.test s caps k
  | .seq a b, s, caps, k => a.run s caps (fun s1 caps1 => b.run s1 caps1 k)
  | .alt a b, s, caps, k =>
    match a.run s caps k with
    | some r => some r
    | none => b.run s caps k
  | .group i r, s, caps, k =>
    r.run s caps (fun s1 caps1 => k s1 (caps1.set i (s.take (s.length - s1.length))))
  | .look r, s, caps, k =>
    match r.run s caps accept with
    | some (_, caps1) => k s caps1
    | none => none
  | .eos, s, caps, k =>
    match s with
    | [] => k [] caps
    | _ :: _ => none

/-- A literal string. -/
def Regex.str : Text → Regex
  | [] => .eps
  | c :: cs => .seq (.char c) (Regex.str cs)

/-- Concatenation of a list of regular expressions. -/
def Regex.cat : List Regex → Regex
  | [] => .eps
  | r :: rs => .seq r (Regex.cat rs)

/-- Number of capture slots (group 0 is unused, groups 1 to 5 are captured). -/
def noCaps : Caps := List.replicate 6 []

/-- One call of `RegExp.prototype.exec` on a global regular expression whose
`lastIndex` points at the start of `s`: try a match at every position from there on,
leftmost first. On success the remaining input is what follows the match (the next
`lastIndex`). The pattern has no look-behind, `^` or `\b`, so a match does not depend
on the text before `lastIndex`. -/
def exec (r : Regex) : Text → Option MatchResult
  | [] => r.run [] noCaps accept
  | c :: cs =>
    match r.run (c :: cs) noCaps accept with
    | some res => some res
    | none => exec r cs

/-! ## `aiGenerator.js` -/

/-- The pattern `\*\*\d+\.` that starts a numbered block. -/
def blockStart : Regex :=
  .cat [.str "**".toList, .cls .digit, .star .digit, .char '.']

/-- The source pattern
`\*\*(\d+)\.\s*Title:\*\*\s*(.*?)\s*\*\*Difficulty:\*\*\s*(.*?)\s*\*\*Concepts:\*\*\s*(.*?)\s*\*\*Description:\*\*\s*(.*?)(?=\*\*\d+\.|$)`
with flags `g` and `s`. -/
def markdownRegex : Regex :=
  .cat [.str "**".toList, .group 1 (.seq (.cls .digit) (.star .digit)), .char '.',
    .star .space, .str "Title:**".toList,
    .star .space, .group 2 (.lazyStar .any),
    .star .space, .str "**Difficulty:**".toList,
    .star .space, .group 3 (.lazyStar .any),
    .star .space, .str "**Concepts:**".toList,
    .star .space, .group 4 (.lazyStar .any),
    .star .space, .str "**Description:**".toList,
    .star .space, .group 5 (.lazyStar .any),
    .look (.alt blockStart .eos)]

/-- The method `String.prototype.trim`. -/
def trim (s : Text) : Text :=
  (s.dropWhile isSpace).rdropWhile isSpace

/-- The method `String.prototype.split` with a one-character separator; the empty string gives
one empty piece. -/
def split (sep : Char) : Text → List Text
  | [] => [[]]
  | c :: cs =>
    if c = sep then [] :: split sep cs
    else
      match split sep cs with
      | [] => [[c]]
      | p :: ps => (c :: p) :: ps

/-- A question record as built by the generator. -/
structure Question where
  title : Text
  difficulty : Text
  concepts : List Text
  description : Text
  category : Text
  completed : Bool
  deriving DecidableEq, Repr

/-- The object pushed for one match of `markdownRegex`. -/
def questionOfMatch (caps : Caps) : Question :=
  { title := trim (caps.getD 2 [])
    difficulty := trim (caps.getD 3 [])
    concepts := (split ',' (caps.getD 4 [])).map trim
    description := trim (caps.getD 5 [])
    category := "Problem Solving".toList
    completed := false }

/-- The loop `while ((match = markdownRegex.exec(aiResponse)) !== null) push`, on the
text from `lastIndex` on. `none` when the fuel runs out. -/
def parseLoop : Nat → Text → Option (List Question)
  | 0, _ => none
  | fuel + 1, s =>
    match exec markdownRegex s with
    | none => some []
    | some (rest, caps) => (parseLoop fuel rest).map (questionOfMatch caps :: ·)

/-- The method `parseAIPlan(aiResponse)`. -/
def parseAIPlan (aiResponse : Text) : Option (List Question) :=
  parseLoop (aiResponse.length + 1) aiResponse



/-- The method `getDefaultQuestions()`: the fallback list. -/
def getDefaultQuestions : List Question :=
  [ { title := "Advanced SQL Join Techniques".toList
      difficulty := "Hard".toList
      concepts := ["Joins".toList, "Complex Aggregations".toList]
      description :=
        "Solve complex data integration problems using advanced join strategies.".toList
      category := "Problem Solving".toList
      completed := false },
    { title := "Indexing and Performance Optimization".toList
      difficulty := "Medium".toList
      concepts := ["Indexes".toList, "Query Optimization".toList]
      description :=
        "Improve query performance by analyzing different indexing strategies.".toList
      category := "Performance Tuning".toList
      completed := false } ]

/-- A value of a request-body field. `undefined` is a field that is missing from the
body. A number is given by what the code observes of it: whether it is truthy (it is
falsy when it is zero or NaN) and the text that its string conversion gives. Arrays
are arrays of strings, and `obj` stands for any other object. -/
inductive JsVal where
  | undefined
  | null
  | bool (b : Bool)
  | num (truthy : Bool) (text : Text)
  | str (s : Text)
  | arr (xs : List Text)
  | obj
  deriving DecidableEq, Repr

/-- JavaScript truthiness, as tested by `!x`, `!!x` and `x || y`. -/
def JsVal.truthy : JsVal → Bool
  | .undefined => false
  | .null => false
  | .bool b => b
  | .num t _ => t
  | .str s => !s.isEmpty
  | .arr _ => true
  | .obj => true

/-- The method `Array.prototype.join`. -/
def joinWith (sep : Text) : List Text → Text
  | [] => []
  | [x] => x
  | x :: y :: rest => x ++ sep ++ joinWith sep (y :: rest)

/-- String conversion of a value inside a template literal. -/
def JsVal.toText : JsVal → Text
  | .undefined => "undefined".toList
  | .null => "null".toList
  | .bool b => if b then "true".toList else "false".toList
  | .num _ text => text
  | .str s => s
  | .arr xs => joinWith ",".toList xs
  | .obj => "[object Object]".toList

/-- The questionnaire answers: `req.body` of the generate request, `userInput` of the
generator. -/
structure UserInput where
  yearsOfExperience : JsVal
  currentCTC : JsVal
  targetCompanies : JsVal
  timeCommitment : JsVal
  deriving DecidableEq, Repr

/-- The errors thrown inside `generateSQLPrepPlan` of the generator. -/
inductive GenError where
  | missingField (field : String)
  | typeError
  | modelFailure
  | invalidResponse
  | emptyResponse
  deriving DecidableEq, Repr

/-- The method `validateInput(userInput)`: throws at the first required field that is falsy. -/
def validateInput (u : UserInput) : Except GenError Unit :=
  if !u.yearsOfExperience.truthy then .error (.missingField "yearsOfExperience")
  else if !u.currentCTC.truthy then .error (.missingField "currentCTC")
  else if !u.targetCompanies.truthy then .error (.missingField "targetCompanies")
  else if !u.timeCommitment.truthy then .error (.missingField "timeCommitment")
  else .ok ()

/-- The method `constructPrompt(userInput)`. `targetCompanies.join` exists on arrays only; on any
other value the call throws a `TypeError`. -/
def constructPrompt (u : UserInput) : Except GenError Text :=
  match u.targetCompanies with
  | .arr companies =>
    .ok ("Create a comprehensive SQL interview preparation plan for a data engineering role with these specifications:\n    - Experience Level: ".toList
      ++ u.yearsOfExperience.toText ++ " years\n    - Current Compensation: ".toList
      ++ u.currentCTC.toText ++ "\n    - Target Companies: ".toList
      ++ joinWith ", ".toList companies ++ "\n    - Weekly Study Time: ".toList
      ++ u.timeCommitment.toText
      ++ "\n\n    Generate exactly 25 SQL interview questions with this STRICT format for EACH question:\n    Title: [Descriptive Title]\n    Difficulty: [Easy/Medium/Hard]\n    Concepts: [Comma-separated SQL concepts]\n    Description: [Detailed problem description with context]".toList)
  | _ => .error .typeError

/-- What the call `this.model.generateContent(prompt)` and the reading of its result
come to: `throws` when the call, or the reading, throws a value whose `message` and
`stack` can be read (an `Error` object, or any value other than `undefined` and `null`);
`throwsNullish` when it throws `undefined` or `null`; `noResponse` when the result or its
`response` is missing; `text` when `result.response.text()` gives a text. -/
inductive ModelOutcome where
  | throws
  | noResponse
  | text (t : Text)
  | throwsNullish
  deriving DecidableEq, Repr

/-- The external generative model: any function from the prompt to an outcome. -/
abbrev Model := Text → ModelOutcome

/-- How the promise of the generator settles: it returns a question list, or it rejects
with an error. -/
inductive GenResult where
  | returned (questions : List Question)
  | rejected (error : GenError)
  deriving DecidableEq, Repr

/-- The generator method `generateSQLPrepPlan(userInput)`. The field
`lastGeneratedResponse` of the generator object is passed in and returned. The first
component is `none` only when the parse loop does not return.

Every error thrown in the `try` block is caught. The `catch` block reads `error.message`
and `error.stack` before it returns the default questions: the errors that the method
throws itself are `Error` objects, on which the reads succeed; when the model call has
thrown `undefined` or `null` the read throws a `TypeError` and the method rejects. -/
def AIGenerator.generateSQLPrepPlan (model : Model) (userInput : UserInput)
    (lastGeneratedResponse : Option Text) : Option GenResult × Option Text :=
  match validateInput userInput with
  | .error _ => (some (.returned getDefaultQuestions), lastGeneratedResponse)
  | .ok _ =>
    match constructPrompt userInput with
    | .error _ => (some (.returned getDefaultQuestions), lastGeneratedResponse)
    | .ok prompt =>
      match model prompt with
      | .throws => (some (.returned getDefaultQuestions), lastGeneratedResponse)
      | .throwsNullish => (some (.rejected .typeError), lastGeneratedResponse)
      | .noResponse => (some (.returned getDefaultQuestions), lastGeneratedResponse)
      | .text aiResponse =>
        if aiResponse.isEmpty || (trim aiResponse).length == 0 then
          (some (.returned getDefaultQuestions), some aiResponse)
        else
          match parseAIPlan aiResponse with
          | none => (none, some aiResponse)
          | some parsedPlan =>
            if parsedPlan.length == 0 then
              (some (.returned getDefaultQuestions), some aiResponse)
            else (some (.returned parsedPlan), some aiResponse)

/-! ## `sqlPrepController.js` -/

/-- The object `q` read by the validation step of the controller: every field may be
absent; `concepts` is `none` when it is absent or not an array. -/
structure RawQuestion where
  title : Option Text
  difficulty : Option Text
  concepts : Option (List Text)
  description : Option Text
  category : Option Text
  completed : Option Bool
  deriving DecidableEq, Repr

/-- A generator record seen as such an object: all fields present. -/
def Question.toRaw (q : Question) : RawQuestion :=
  { title := some q.title
    difficulty := some q.difficulty
    concepts := some q.concepts
    description := some q.description
    category := some q.category
    completed := some q.completed }

/-- The expression `x || fallback` on an optional string: the fallback is taken when the string is
absent or empty. -/
def orElseText (x : Option Text) (fallback : Text) : Text :=
  match x with
  | some t => if t.isEmpty then fallback else t
  | none => fallback

/-- The arrow function of `questions.map(q => …)` in the controller. -/
def validateQuestion (q : RawQuestion) : Question :=
  { title := orElseText q.title "Untitled Question".toList
    difficulty := orElseText q.difficulty "Medium".toList
    concepts :=
      match q.concepts with
      | some cs => cs
      | none => ["SQL".toList]
    description := orElseText q.description "No description provided".toList
    completed := false
    category := orElseText q.category "Problem Solving".toList }

/-- User identifiers. -/
abbrev UserId := Nat

/-- A question stored in a plan, with the identifier given by the store. -/
structure StoredQuestion extends Question where
  id : Nat
  deriving DecidableEq, Repr

/-- Modelled from the spec: the `SQLPrepPlan` document of `server/models/SQLPrepPlan`
(section 3, PrepPlan): owner, the four questionnaire answers as received, the questions
and the generation time. -/
structure PrepPlan where
  user : UserId
  yearsOfExperience : JsVal
  currentCTC : JsVal
  targetCompanies : JsVal
  timeCommitment : JsVal
  questions : List StoredQuestion
  generatedAt : Nat
  deriving DecidableEq, Repr

/-- Modelled from the spec: the document store behind the `SQLPrepPlan` model: the
stored plans in insertion order and the next fresh question identifier. -/
structure Store where
  plans : List PrepPlan
  nextId : Nat
  deriving DecidableEq, Repr

/-- Modelled from the spec: identifiers "assigned by storage on insert" to a question
list, consecutive from `next`. -/
def assignIds (next : Nat) : List Question → List StoredQuestion
  | [] => []
  | q :: qs => { q with id := next } :: assignIds (next + 1) qs

/-- Modelled from the spec: `SQLPrepPlan.findOne({ user })`, the first stored plan of
the user. -/
def findOne (user : UserId) (plans : List PrepPlan) : Option PrepPlan :=
  plans.find? (fun p => p.user == user)

/-- Modelled from the spec: `save()` on a document returned by `findOne({ user })`:
the first plan of the user is replaced by the changed document. -/
def saveExisting (user : UserId) (doc : PrepPlan) : List PrepPlan → List PrepPlan
  | [] => []
  | p :: ps => if p.user == user then doc :: ps else p :: saveExisting user doc ps

/-- Modelled from the spec: the plan with the latest `generatedAt` in a list, the
earliest stored one among equals. -/
def latest : List PrepPlan → Option PrepPlan
  | [] => none
  | p :: ps =>
    match latest ps with
    | none => some p
    | some q => if p.generatedAt < q.generatedAt then some q else some p

/-- Modelled from the spec:
`SQLPrepPlan.findOne({ user }).sort({ generatedAt: -1 }).limit(1)`. -/
def findLatest (user : UserId) (plans : List PrepPlan) : Option PrepPlan :=
  latest (plans.filter (fun p => p.user == user))

/-- The data-model invariant: at most one plan per user. -/
def UniquePlans (plans : List PrepPlan) : Prop :=
  (plans.map (fun p => p.user)).Nodup

instance (plans : List PrepPlan) : Decidable (UniquePlans plans) := by
  unfold UniquePlans
  infer_instance

/-- What the storage calls of one request do: all succeed, the lookup throws, the save
of the plan throws, or the save of the user record throws. A storage call that throws,
throws an `Error` object, whose `message` the `catch` block of a controller can read. -/
inductive Persistence where
  | ok
  | findFails
  | saveFails
  | userSaveFails
  deriving DecidableEq, Repr

/-- The state that outlives a request: the plan store and the generator's
`lastGeneratedResponse`. -/
structure ServerState where
  store : Store
  lastGeneratedResponse : Option Text
  deriving DecidableEq, Repr

/-- The `details` map of the 400 response: `!!field` for each field. -/
structure Details where
  yearsOfExperience : Bool
  currentCTC : Bool
  targetCompanies : Bool
  timeCommitment : Bool
  deriving DecidableEq, Repr

/-- The `metadata` object of the 201 response. -/
structure Metadata where
  yearsOfExperience : JsVal
  currentCTC : JsVal
  targetCompanies : JsVal
  timeCommitment : JsVal
  generatedAt : Nat
  deriving DecidableEq, Repr

/-- Responses of the generate-plan operation. -/
inductive GenResponse where
  | badRequest (details : Details)
  | failure (status : Nat) (message : String)
  | created (questions : List Question) (metadata : Metadata) (aiResponse : Text)
  deriving DecidableEq, Repr

/-- The expression `AIGenerator.lastGeneratedResponse || 'No AI response available'`. -/
def aiResponseOf (last : Option Text) : Text :=
  orElseText last "No AI response available".toList

/-- All four questionnaire fields are truthy: the input passes the validation of the
controller. -/
def UserInput.valid (u : UserInput) : Bool :=
  u.yearsOfExperience.truthy && u.currentCTC.truthy && u.targetCompanies.truthy &&
    u.timeCommitment.truthy

/-- The `details` object built from the request body. -/
def detailsOf (body : UserInput) : Details :=
  { yearsOfExperience := body.yearsOfExperience.truthy
    currentCTC := body.currentCTC.truthy
    targetCompanies := body.targetCompanies.truthy
    timeCommitment := body.timeCommitment.truthy }

/-- The `metadata` object built from the request body and the generation time. -/
def metadataOf (body : UserInput) (generatedAt : Nat) : Metadata :=
  { yearsOfExperience := body.yearsOfExperience
    currentCTC := body.currentCTC
    targetCompanies := body.targetCompanies
    timeCommitment := body.timeCommitment
    generatedAt := generatedAt }

/-- The plan document written by the generate-plan operation. -/
def planOf (userId : UserId) (body : UserInput) (questions : List StoredQuestion)
    (now : Nat) : PrepPlan :=
  { user := userId
    yearsOfExperience := body.yearsOfExperience
    currentCTC := body.currentCTC
    targetCompanies := body.targetCompanies
    timeCommitment := body.timeCommitment
    questions := questions
    generatedAt := now }

/-- Lines 53 to 77 of the controller: overwrite the fields of the existing plan of the
user, or create a new plan, and save it. -/
def upsertPlan (userId : UserId) (body : UserInput) (questions : List StoredQuestion)
    (now : Nat) (plans : List PrepPlan) : List PrepPlan :=
  match findOne userId plans with
  | some sqlPrepPlan =>
    saveExisting userId
      { sqlPrepPlan with
        yearsOfExperience := body.yearsOfExperience
        currentCTC := body.currentCTC
        targetCompanies := body.targetCompanies
        timeCommitment := body.timeCommitment
        questions := questions
        generatedAt := now } plans
  | none => plans ++ [planOf userId body questions now]

/-- The state after a generate-plan request whose plan was saved. -/
def stateAfterGenerate (userId : UserId) (body : UserInput) (validatedQuestions : List Question)
    (now : Nat) (last : Option Text) (st : ServerState) : ServerState :=
  { store :=
      { plans := upsertPlan userId body (assignIds st.store.nextId validatedQuestions) now
          st.store.plans
        nextId := st.store.nextId + validatedQuestions.length }
    lastGeneratedResponse := last }

/-- The controller `generateSQLPrepPlan(req, res)` for the authenticated user `userId`
at time `now`. `none` only when the generator does not return. A rejection of the
generator is caught by the `catch` block of the controller, which answers 500. -/
def Controller.generateSQLPrepPlan (model : Model) (pers : Persistence) (now : Nat)
    (userId : UserId) (body : UserInput) (st : ServerState) :
    Option (GenResponse × ServerState) :=
  if !body.yearsOfExperience.truthy || !body.currentCTC.truthy ||
      !body.targetCompanies.truthy || !body.timeCommitment.truthy then
    some (.badRequest (detailsOf body), st)
  else
    match AIGenerator.generateSQLPrepPlan model body st.lastGeneratedResponse with
    | (none, _) => none
    | (some (.rejected _), last) =>
      some (.failure 500 "Error generating SQL prep plan",
        { st with lastGeneratedResponse := last })
    | (some (.returned questions), last) =>
      let aiResponse := aiResponseOf last
      if questions.length == 0 then
        some (.failure 500 "Failed to generate SQL prep questions",
          { st with lastGeneratedResponse := last })
      else
        let validatedQuestions := questions.map (fun q => validateQuestion q.toRaw)
        match pers with
        | .findFails =>
          some (.failure 500 "Error generating SQL prep plan",
            { st with lastGeneratedResponse := last })
        | .saveFails =>
          some (.failure 500 "Error generating SQL prep plan",
            { st with lastGeneratedResponse := last })
        | .userSaveFails =>
          some (.failure 500 "Error generating SQL prep plan",
            stateAfterGenerate userId body validatedQuestions now last st)
        | .ok =>
          some (.created validatedQuestions (metadataOf body now) aiResponse,
            stateAfterGenerate userId body validatedQuestions now last st)

/-- Responses of the saved-plan and update-progress operations. -/
inductive PlanResponse where
  | plan (p : PrepPlan)
  | failure (status : Nat) (message : String)
  deriving DecidableEq, Repr

/-- The controller `getSavedSQLPrepPlan(req, res)`. -/
def getSavedSQLPrepPlan (pers : Persistence) (userId : UserId) (st : ServerState) :
    PlanResponse × ServerState :=
  if pers = .findFails then (.failure 500 "Error retrieving SQL prep plan", st)
  else
    match findLatest userId st.store.plans with
    | none => (.failure 404 "No SQL prep plan found", st)
    | some sqlPrepPlan => (.plan sqlPrepPlan, st)

/-- The `questionId` of an update request, by what the controller can observe of it:
falsy (missing, `null`, empty string, …), the string form of a stored identifier, or
any other truthy value. -/
inductive QuestionIdArg where
  | missing
  | id (n : Nat)
  | other
  deriving DecidableEq, Repr

/-- The body of an update-progress request. -/
structure UpdateBody where
  questionId : QuestionIdArg
  completed : Bool
  deriving DecidableEq, Repr

/-- The call `questions.findIndex(q => q._id.toString() === questionId)`; `none` stands
for `-1`. -/
def findIndex (questionId : QuestionIdArg) : List StoredQuestion → Option Nat
  | [] => none
  | q :: qs =>
    if questionId = .id q.id then some 0
    else (findIndex questionId qs).map (· + 1)

/-- The assignment `questions[i].completed = completed`. -/
def setCompleted (i : Nat) (completed : Bool) : List StoredQuestion → List StoredQuestion
  | [] => []
  | q :: qs =>
    match i with
    | 0 => { q with completed := completed } :: qs
    | j + 1 => q :: setCompleted j completed qs

/-- The controller `updateQuestionProgress(req, res)`. -/
def updateQuestionProgress (pers : Persistence) (userId : UserId) (body : UpdateBody)
    (st : ServerState) : PlanResponse × ServerState :=
  if body.questionId = .missing then (.failure 400 "Question ID is required", st)
  else if pers = .findFails then (.failure 500 "Error updating question progress", st)
  else
    match findOne userId st.store.plans with
    | none => (.failure 404 "No SQL prep plan found", st)
    | some sqlPrepPlan =>
      match findIndex body.questionId sqlPrepPlan.questions with
      | none => (.failure 404 "Question not found", st)
      | some questionIndex =>
        let updated : PrepPlan :=
          { sqlPrepPlan with
            questions := setCompleted questionIndex body.completed sqlPrepPlan.questions }
        if pers = .saveFails then (.failure 500 "Error updating question progress", st)
        else
          (.plan updated,
            { st with store := { st.store with
                plans := saveExisting userId updated st.store.plans } })

/-! ## Well-formed numbered blocks -/

/-- Does the marker `m` occur in `f ++ rest` at an index inside `f`? -/
def earlyMarker (m : Text) : Text → Text → Bool
  | [], _ => false
  | c :: f, rest => m.isPrefixOf (c :: f ++ rest) || earlyMarker m f rest

/-- Does a numbered-block marker `**<digits>.` start at the front of `s`? -/
def blockMarkerAt (s : Text) : Bool :=
  match s with
  | a :: b :: d :: rest =>
    a == '*' && b == '*' && isDigit d && ((rest.dropWhile isDigit).head? == some '.')
  | _ => false

/-- Does a numbered-block marker start anywhere in `s`? -/
def hasBlockMarker : Text → Bool
  | [] => false
  | c :: cs => blockMarkerAt (c :: cs) || hasBlockMarker cs

/-- A numbered block of the response template
`**N. Title:** t **Difficulty:** d **Concepts:** c **Description:** s`: the number, the
white space after its dot, and the four field texts between the markers. -/
structure Block where
  number : Text
  gap : Text
  title : Text
  difficulty : Text
  concepts : Text
  description : Text
  deriving DecidableEq, Repr

/-- The text of a block. -/
def Block.text (b : Block) : Text :=
  "**".toList ++ b.number ++ ".".toList ++ b.gap ++ "Title:**".toList ++ b.title ++
    "**Difficulty:**".toList ++ b.difficulty ++ "**Concepts:**".toList ++ b.concepts ++
    "**Description:**".toList ++ b.description

/-- A block is well formed when its number is a non-empty run of digits, the gap is
white space, each of the first three fields ends at the first occurrence of its
closing marker, and the description contains no numbered-block marker. -/
def Block.WellFormed (b : Block) : Prop :=
  b.number ≠ [] ∧ b.number.all isDigit = true ∧ b.gap.all isSpace = true ∧
  earlyMarker "**Difficulty:**".toList b.title "**Difficulty:**".toList = false ∧
  earlyMarker "**Concepts:**".toList b.difficulty "**Concepts:**".toList = false ∧
  earlyMarker "**Description:**".toList b.concepts "**Description:**".toList = false ∧
  hasBlockMarker b.description = false

instance (b : Block) : Decidable b.WellFormed := by
  unfold Block.WellFormed
  infer_instance

/-- The entry expected for a block: trimmed fields, concepts split on commas. -/
def Block.entry (b : Block) : Question :=
  { title := trim b.title
    difficulty := trim b.difficulty
    concepts := (split ',' b.concepts).map trim
    description := trim b.description
    category := "Problem Solving".toList
    completed := false }

/-- The response text made of the given blocks, one after the other. -/
def blocksText : List Block → Text
  | [] => []
  | b :: bs => b.text ++ blocksText bs

/-! ## The client state of `SQLPrepContext.jsx` -/

/-- A question object held in the client state. Its `_id` is absent when the state was
set from the answer of a generate-plan request, whose questions carry no identifier. -/
structure ClientQuestion extends Question where
  id : Option Nat
  deriving DecidableEq, Repr

/-- The plan object held in the client state: the `questions` field, absent or a list,
and all the other fields of the object. -/
structure ClientPlan (α : Type) where
  questions : Option (List ClientQuestion)
  other : α
  deriving DecidableEq, Repr

/-- The `questionId` passed to the client's `updateQuestionProgress`, by what the strict
comparison `q._id === questionId` can observe: `undefined`, the string form of an
identifier, or any other value. -/
inductive ClientIdArg where
  | undefined
  | id (n : Nat)
  | other
  deriving DecidableEq, Repr

/-- The comparison `q._id === questionId`. -/
def idMatches (qid : Option Nat) (questionId : ClientIdArg) : Bool :=
  match qid, questionId with
  | some a, .id b => a == b
  | none, .undefined => true
  | _, _ => false

/-- The state update `setSQLPrepPlan(prev => …)` of the client's
`updateQuestionProgress(questionId, completed)`; `none` is the `null` state. -/
def Client.updateQuestionProgress {α : Type} (questionId : ClientIdArg) (completed : Bool)
    (prev : Option (ClientPlan α)) : Option (ClientPlan α) :=
  match prev with
  | none => none
  | some plan =>
    match plan.questions with
    | none => some plan
    | some questions =>
      some { plan with
        questions := some (questions.map (fun q =>
          if idMatches q.id questionId then { q with completed := completed } else q)) }

/-- A stored question as the client receives it in a fetched plan. -/
def ClientQuestion.ofStored (q : StoredQuestion) : ClientQuestion :=
  { q.toQuestion with id := some q.id }

/-- The `questionId` of the request the client sends to the server. -/
def ClientIdArg.toRequest : ClientIdArg → QuestionIdArg
  | .undefined => .missing
  | .id n => .id n
  | .other => .other

/-! ## Counting occurrences of a literal -/

/-- Number of non-overlapping occurrences of `m` in a text, counted from the left; the
first `skip` positions are inside the occurrence counted last. -/
def countFrom (m : Text) : Nat → Text → Nat
  | _, [] => 0
  | skip, c :: cs =>
    if skip = 0 ∧ m.isPrefixOf (c :: cs) = true then 1 + countFrom m (m.length - 1) cs
    else countFrom m (skip - 1) cs

/-- Number of non-overlapping occurrences of the literal `m` in `s`. -/
def countOccurrences (m s : Text) : Nat :=
  countFrom m 0 s

/-- No leading and no trailing white space. -/
def Trimmed (s : Text) : Prop :=
  (∀ c, s.head? = some c → isSpace c = false) ∧ (∀ c, s.getLast? = some c → isSpace c = false)

/-! ## Sample data -/

/-- Two blocks in the template for the witness of C1. -/
def sampleBlocks : List Block :=
  [ { number := "1".toList, gap := " ".toList, title := " Top N per group ".toList,
      difficulty := " Hard ".toList, concepts := " Window Functions, CTE ".toList,
      description := " Find the top 3 salaries.\n".toList },
    { number := "12".toList, gap := " ".toList, title := " Gaps ".toList,
      difficulty := " Easy ".toList, concepts := " Joins ".toList,
      description := " List missing ids. ".toList } ]

/-- The questionnaire answers of the end-to-end example. -/
def sampleInput : UserInput :=
  { yearsOfExperience := .str "3".toList
    currentCTC := .str "5-10L".toList
    targetCompanies := .arr ["Google".toList, "Amazon".toList]
    timeCommitment := .str "5-10 hours".toList }

/-- The state of a server that has stored no plan and made no model call. -/
def emptyState : ServerState :=
  { store := { plans := [], nextId := 0 }, lastGeneratedResponse := none }

/-- A response of one block whose title is empty and whose difficulty is not one of the
three levels. -/
def emptyTitleText : Text :=
  "**1. Title:** **Difficulty:** Tricky **Concepts:** Joins **Description:** Write the query.".toList

/-- The record the parser builds from `emptyTitleText`. -/
def emptyTitleQuestion : Question :=
  { title := []
    difficulty := "Tricky".toList
    concepts := ["Joins".toList]
    description := "Write the query.".toList
    category := "Problem Solving".toList
    completed := false }

/-- A request body in which every field is present and `currentCTC` is the empty
string, as the questionnaire form sends it when no range is selected. -/
def blankCTCInput : UserInput :=
  { yearsOfExperience := .str "3".toList
    currentCTC := .str []
    targetCompanies := .arr ["Google".toList]
    timeCommitment := .str "5-10 hours".toList }

/-- The state after the end-to-end example with a failing model call: one plan of user
7 holding the two default questions under the identifiers 0 and 1. -/
def sampleState : ServerState :=
  stateAfterGenerate 7 sampleInput getDefaultQuestions 1700 none emptyState

/-- The plan stored in `sampleState`. -/
def samplePlan : PrepPlan :=
  planOf 7 sampleInput (assignIds 0 getDefaultQuestions) 1700

/-- The state after a generate-plan request of user 7 whose model call returned
`emptyTitleText`. -/
def stateAfterText : ServerState :=
  stateAfterGenerate 7 sampleInput [{ emptyTitleQuestion with title := "Untitled Question".toList }]
    1700 (some emptyTitleText) emptyState

/-- A response in the plain format that the prompt asks for. -/
def plainFormatText : Text :=
  "Title: Top N per group\nDifficulty: Hard\nConcepts: Window Functions\nDescription: Find the top 3.".toList

/-- A text with three overlapping-free occurrences of the description marker, only one
of which ends a template block. -/
def markerText : Text :=
  "**Description:** **1. Title:** t **Difficulty:** d **Concepts:** c **Description:** s **Description:** u".toList

/-! ## Facts about the matcher -/

theorem test_space : CharClass.space.test = isSpace := rfl

theorem test_digit : CharClass.digit.test = isDigit := rfl

theorem test_any : CharClass.any.test = fun _ => true := rfl

theorem run_look (r : Regex) (s : Text) (caps : Caps) (k : Cont) :
    (Regex.look r).run s caps k =
      match r.run s caps accept with
      | some (_, caps1) => k s caps1
      | none => none := rfl

theorem run_alt (a b : Regex) (s : Text) (caps : Caps) (k : Cont) :
    (Regex.alt a b).run s caps k =
      match a.run s caps k with
      | some r => some r
      | none => b.run s caps k := rfl

theorem run_seq (a b : Regex) (s : Text) (caps : Caps) (k : Cont) :
    (Regex.seq a b).run s caps k = a.run s caps (fun s1 caps1 => b.run s1 caps1 k) := rfl

theorem run_str_append (m s : Text) (caps : Caps) (k : Cont) :
    (Regex.str m).run (m ++ s) caps k = k s caps := by
  induction m with
  | nil => rfl
  | cons c cs ih => simpa [Regex.str, Regex.run] using ih

theorem run_str_none (m s : Text) (caps : Caps) (k : Cont) (h : m.isPrefixOf s = false) :
    (Regex.str m).run s caps k = none := by
  induction m generalizing s with
  | nil => simp at h
  | cons c cs ih =>
    cases s with
    | nil => simp [Regex.str, Regex.run]
    | cons d ds =>
      simp only [Regex.str, Regex.run]
      by_cases hdc : d = c
      · subst hdc
        simp only [List.isPrefixOf, beq_self_eq_true, Bool.true_and] at h
        simpa using ih ds h
      · simp [hdc]

theorem starGreedy_cons (p : Char → Bool) (c : Char) (cs : Text) (caps : Caps) (k : Cont) :
    starGreedy p (c :: cs) caps k =
      if p c then
        match starGreedy p cs caps k with
        | some r => some r
        | none => k (c :: cs) caps
      else k (c :: cs) caps := rfl

theorem starLazy_cons (p : Char → Bool) (c : Char) (cs : Text) (caps : Caps) (k : Cont) :
    starLazy p (c :: cs) caps k =
      match k (c :: cs) caps with
      | some r => some r
      | none => if p c then starLazy p cs caps k else none := rfl

theorem starGreedy_max (p : Char → Bool) (s : Text) (caps : Caps) (k : Cont) (r : MatchResult)
    (h : k (s.dropWhile p) caps = some r) : starGreedy p s caps k = some r := by
  induction s with
  | nil => simpa [starGreedy] using h
  | cons c cs ih =>
    by_cases hc : p c = true
    · simp only [List.dropWhile_cons_of_pos hc] at h
      simp [starGreedy, hc, ih h]
    · simp only [List.dropWhile_cons_of_neg hc] at h
      simp [starGreedy, hc, h]

theorem starLazy_of_some (p : Char → Bool) (s : Text) (caps : Caps) (k : Cont) (r : MatchResult)
    (h : k s caps = some r) : starLazy p s caps k = some r := by
  cases s with
  | nil => simpa [starLazy] using h
  | cons c cs => simp [starLazy, h]

theorem exec_of_run (r : Regex) (s : Text) (res : MatchResult)
    (h : r.run s noCaps accept = some res) : exec r s = some res := by
  cases s with
  | nil => simpa [exec] using h
  | cons c cs => simp [exec, h]

theorem isPrefixOf_append_marker (m u tail : Text) :
    m.isPrefixOf (u ++ (m ++ tail)) = m.isPrefixOf (u ++ m) := by
  have key : ∀ x : Text, m.length ≤ x.length → ∀ y, (m <+: x ++ y ↔ m <+: x) := by
    intro x hx y
    rw [List.prefix_iff_eq_take, List.prefix_iff_eq_take, List.take_append_of_le_length hx]
  have h := key (u ++ m) (by simp) tail
  rw [List.append_assoc] at h
  rw [Bool.eq_iff_iff]
  simpa using h

theorem earlyMarker_tail (m u tail : Text) :
    earlyMarker m u (m ++ tail) = earlyMarker m u m := by
  induction u with
  | nil => rfl
  | cons c cs ih =>
    have h := isPrefixOf_append_marker m (c :: cs) tail
    simp only [List.cons_append] at h
    simp only [earlyMarker, ih, List.cons_append, h]

theorem earlyMarker_append (m a b rest : Text) (h : earlyMarker m (a ++ b) rest = false) :
    earlyMarker m b rest = false := by
  induction a with
  | nil => simpa using h
  | cons c cs ih =>
    simp only [List.cons_append, earlyMarker, Bool.or_eq_false_iff] at h
    exact ih h.2

/-- When the text before the marker is not all white space, `\s*` followed by the
marker fails at its front. -/
theorem starGreedy_no_marker (m : Text) (R : Regex) (k : Cont) (rest : Text) (caps : Caps)
    (u : Text) (hu : ∃ c ∈ u, isSpace c = false) (he : earlyMarker m u rest = false) :
    starGreedy isSpace (u ++ rest) caps
      (fun s2 c2 => (Regex.seq (Regex.str m) R).run s2 c2 k) = none := by
  induction u with
  | nil => simp at hu
  | cons c cs ih =>
    simp only [earlyMarker, Bool.or_eq_false_iff] at he
    have hk : (Regex.seq (Regex.str m) R).run (c :: cs ++ rest) caps k = none := by
      simp only [Regex.run]
      exact run_str_none _ _ _ _ he.1
    by_cases hc : isSpace c = true
    · have hu2 : ∃ d ∈ cs, isSpace d = false := by
        obtain ⟨d, hd, hds⟩ := hu
        rcases List.mem_cons.1 hd with rfl | hd
        · simp [hc] at hds
        · exact ⟨d, hd, hds⟩
      have ih2 := ih hu2 he.2
      rw [List.cons_append, starGreedy_cons, if_pos hc, ih2]
      exact hk
    · rw [List.cons_append, starGreedy_cons, if_neg hc]
      exact hk

theorem take_length_sub (v w : Text) : (v ++ w).take ((v ++ w).length - w.length) = v := by
  simp

/-- The lazy scan of a captured field stops at the end of the trimmed field text:
before that, `\s*` followed by the marker fails. -/
theorem starLazy_field (m : Text) (Rs : Regex) (k : Cont) (tail : Text) (caps : Caps) (i : Nat)
    (r : MatchResult) (hm : (m ++ tail).dropWhile isSpace = m ++ tail)
    (trail : Text) (htrail : ∀ c ∈ trail, isSpace c = true) (s0 : Text)
    (core : Text) (v : Text)
    (hs0 : s0 = v ++ (core ++ trail ++ (m ++ tail)))
    (hcore : ∀ h : core ≠ [], isSpace (core.getLast h) = false)
    (he : earlyMarker m (core ++ trail) (m ++ tail) = false)
    (hr : Rs.run tail (caps.set i (v ++ core)) k = some r) :
    starLazy (fun _ => true) (core ++ trail ++ (m ++ tail)) caps
      (fun s1 caps1 => (Regex.seq (.star .space) (.seq (.str m) Rs)).run s1
         (caps1.set i (s0.take (s0.length - s1.length))) k) = some r := by
  induction core generalizing v with
  | nil =>
    apply starLazy_of_some
    simp only [List.nil_append] at hs0 ⊢
    rw [hs0, take_length_sub]
    simp only [Regex.run]
    apply starGreedy_max
    change (Regex.str m).run (List.dropWhile isSpace (trail ++ (m ++ tail))) _ _ = some r
    rw [List.dropWhile_append_of_pos htrail, hm, run_str_append]
    simpa using hr
  | cons c cs ih =>
    have hne : c :: cs ≠ [] := List.cons_ne_nil _ _
    have hlast := hcore hne
    have hu : ∃ d ∈ c :: cs ++ trail, isSpace d = false :=
      ⟨(c :: cs).getLast hne, List.mem_append_left _ (List.getLast_mem hne), hlast⟩
    have hfail := starGreedy_no_marker m Rs k (m ++ tail)
      (caps.set i (s0.take (s0.length - (c :: cs ++ trail ++ (m ++ tail)).length)))
      (c :: cs ++ trail) hu he
    have he2 : earlyMarker m (cs ++ trail) (m ++ tail) = false := by
      simp only [List.cons_append, earlyMarker, Bool.or_eq_false_iff] at he
      exact he.2
    have hcore2 : ∀ h : cs ≠ [], isSpace (cs.getLast h) = false := by
      intro h
      have := hcore hne
      rwa [List.getLast_cons h] at this
    have ih2 := ih (v ++ [c]) (by simp [hs0]) hcore2 he2 (by simpa using hr)
    rw [List.cons_append, List.cons_append, starLazy_cons]
    have hfail2 : (Regex.seq (.star .space) (.seq (.str m) Rs)).run (c :: (cs ++ trail ++ (m ++ tail)))
        (caps.set i (s0.take (s0.length - (c :: (cs ++ trail ++ (m ++ tail))).length))) k = none := by
      simp only [Regex.run]
      exact hfail
    simp only [hfail2]
    exact ih2

theorem rdropWhile_append_rtakeWhile (p : Char → Bool) (l : Text) :
    l.rdropWhile p ++ l.rtakeWhile p = l := by
  simp [List.rdropWhile, List.rtakeWhile, ← List.reverse_append]

theorem dropWhile_append_fixed (f g : Text) (hg : g.dropWhile isSpace = g) :
    (f ++ g).dropWhile isSpace = f.dropWhile isSpace ++ g := by
  rw [List.dropWhile_append]
  split
  · rename_i h
    simp only [List.isEmpty_iff] at h
    rw [h, hg]
    rfl
  · rfl

theorem trim_last (f : Text) (h : trim f ≠ []) : isSpace ((trim f).getLast h) = false := by
  have := List.rdropWhile_last_not isSpace (f.dropWhile isSpace) h
  simpa [trim] using this

/-- One captured field followed by its closing marker: `\s*(.*?)\s*` and the marker
capture the trimmed field text when the marker does not occur earlier. -/
theorem field_stage (m : Text) (L : List Regex) (k : Cont) (tail : Text) (caps : Caps) (i : Nat)
    (r : MatchResult) (hm : (m ++ tail).dropWhile isSpace = m ++ tail) (f : Text)
    (hf : earlyMarker m f m = false)
    (hr : (Regex.cat L).run tail (caps.set i (trim f)) k = some r) :
    (Regex.cat (.star .space :: .group i (.lazyStar .any) :: .star .space :: .str m :: L)).run
      (f ++ (m ++ tail)) caps k = some r := by
  have hsplit : f.dropWhile isSpace = trim f ++ (f.dropWhile isSpace).rtakeWhile isSpace :=
    (rdropWhile_append_rtakeWhile isSpace (f.dropWhile isSpace)).symm
  have htrail : ∀ c ∈ (f.dropWhile isSpace).rtakeWhile isSpace, isSpace c = true :=
    fun c hc => List.mem_rtakeWhile_imp hc
  have he : earlyMarker m (trim f ++ (f.dropWhile isSpace).rtakeWhile isSpace) (m ++ tail)
      = false := by
    rw [← hsplit, earlyMarker_tail]
    apply earlyMarker_append m (f.takeWhile isSpace)
    rw [List.takeWhile_append_dropWhile]
    exact hf
  have key := starLazy_field m (Regex.cat L) k tail caps i r hm _ htrail
    (f.dropWhile isSpace ++ (m ++ tail)) (trim f) []
    (by rw [List.nil_append, ← hsplit]) (trim_last f) he (by simpa using hr)
  rw [← hsplit] at key
  simp only [Regex.cat, Regex.run, test_space, test_any]
  apply starGreedy_max
  rw [dropWhile_append_fixed f (m ++ tail) hm]
  exact key

theorem star_not_digit : isDigit '*' = false := by decide

theorem star_not_space : isSpace '*' = false := by decide

theorem dot_not_digit (c : Char) (h : isDigit c = true) : c ≠ '.' := by
  rintro rfl
  exact absurd h (by decide)

/-- Greedy `\d*` followed by a literal dot: backtracking never helps, because a dot is
not a digit. -/
theorem digits_dot (z : Text) (caps : Caps) :
    starGreedy isDigit z caps (fun s1 c1 => (Regex.seq (.char '.') .eps).run s1 c1 accept) =
      if (z.dropWhile isDigit).head? = some '.' then some ((z.dropWhile isDigit).tail, caps)
      else none := by
  induction z with
  | nil => simp [starGreedy, Regex.run]
  | cons c cs ih =>
    rw [starGreedy_cons]
    by_cases hc : isDigit c = true
    · rw [if_pos hc, ih, List.dropWhile_cons_of_pos hc]
      by_cases h : (List.dropWhile isDigit cs).head? = some '.'
      · simp [h]
      · simp [h, Regex.run, dot_not_digit c hc]
    · rw [if_neg hc, List.dropWhile_cons_of_neg hc]
      by_cases hd : c = '.'
      · simp [Regex.run, hd, accept]
      · simp [Regex.run, hd]

theorem blockStart_run (x : Text) (caps : Caps) :
    blockStart.run x caps accept =
      if blockMarkerAt x = true then some (((x.drop 3).dropWhile isDigit).tail, caps)
      else none := by
  have h2 : "**".toList = ['*', '*'] := rfl
  simp only [blockStart, Regex.cat, h2, Regex.str]
  match x with
  | [] => simp [Regex.run, blockMarkerAt]
  | [a] => by_cases ha : a = '*' <;> simp [Regex.run, blockMarkerAt, ha]
  | [a, b] => by_cases ha : a = '*' <;> by_cases hb : b = '*' <;> simp [Regex.run, blockMarkerAt, ha, hb]
  | a :: b :: d :: rest =>
    by_cases ha : a = '*'
    · by_cases hb : b = '*'
      · by_cases hd : isDigit d = true
        · have := digits_dot rest caps
          simp only [Regex.run, test_digit] at this ⊢
          simp only [ha, hb, hd, if_true, this]
          simp [blockMarkerAt, hd]
        · simp [Regex.run, blockMarkerAt, ha, hb, hd, test_digit]
      · simp [Regex.run, blockMarkerAt, ha, hb]
    · simp [Regex.run, blockMarkerAt, ha]

/-- The lookahead `(?=\*\*\d+\.|$)`. -/
theorem look_run (x : Text) (caps : Caps) (k : Cont) :
    (Regex.look (.alt blockStart .eos)).run x caps k =
      if (blockMarkerAt x || x.isEmpty) = true then k x caps else none := by
  rw [run_look, run_alt, blockStart_run]
  by_cases hb : blockMarkerAt x = true
  · simp [hb]
  · cases x with
    | nil => simp [blockMarkerAt, Regex.run, accept]
    | cons c cs => simp [hb, Regex.run]

theorem hasBlockMarker_suffix (a b : Text) (h : hasBlockMarker (a ++ b) = false)
    (hb : b ≠ []) : blockMarkerAt b = false := by
  induction a with
  | nil =>
    cases b with
    | nil => exact absurd rfl hb
    | cons c cs =>
      simp only [List.nil_append, hasBlockMarker, Bool.or_eq_false_iff] at h
      exact h.1
  | cons c cs ih =>
    simp only [List.cons_append, hasBlockMarker, Bool.or_eq_false_iff] at h
    exact ih h.2

theorem blockMarkerAt_stars (tail : Text) (h : blockMarkerAt tail = true) :
    ∃ t, tail = '*' :: '*' :: t := by
  match tail with
  | [] => simp [blockMarkerAt] at h
  | [a] => simp [blockMarkerAt] at h
  | [a, b] => simp [blockMarkerAt] at h
  | a :: b :: d :: rest =>
    simp only [blockMarkerAt, Bool.and_eq_true, beq_iff_eq] at h
    obtain ⟨⟨⟨ha, hb⟩, _⟩, _⟩ := h
    exact ⟨d :: rest, by rw [ha, hb]⟩

theorem head_dropWhile_digit_append (y tail : Text) (ht : tail = [] ∨ ∃ t, tail = '*' :: t) :
    (((y ++ tail).dropWhile isDigit).head? == some '.') =
      ((y.dropWhile isDigit).head? == some '.') := by
  rw [List.dropWhile_append]
  split
  · rename_i h
    simp only [List.isEmpty_iff] at h
    rw [h]
    rcases ht with rfl | ⟨t, rfl⟩
    · rfl
    · rw [List.dropWhile_cons_of_neg (by simp [star_not_digit])]
      rfl
  · rename_i h
    cases hd : List.dropWhile isDigit y with
    | nil => simp [hd] at h
    | cons e es => rfl

theorem blockMarkerAt_append (b tail : Text) (ht : tail = [] ∨ ∃ t, tail = '*' :: '*' :: t)
    (hb : b ≠ []) : blockMarkerAt (b ++ tail) = blockMarkerAt b := by
  match b with
  | [] => exact absurd rfl hb
  | [a] =>
    rcases ht with rfl | ⟨t, rfl⟩
    · rfl
    · simp [blockMarkerAt, star_not_digit]
  | [a, c] =>
    rcases ht with rfl | ⟨t, rfl⟩
    · rfl
    · simp [blockMarkerAt, star_not_digit]
  | a :: c :: d :: y =>
    have ht2 : tail = [] ∨ ∃ t, tail = '*' :: t := by
      rcases ht with h | ⟨t, h⟩
      · exact Or.inl h
      · exact Or.inr ⟨_, h⟩
    simp only [List.cons_append, blockMarkerAt, head_dropWhile_digit_append y tail ht2]

/-- The lazy scan of the description stops at the first position where the lookahead
holds: the end of the description text. -/
theorem starLazy_desc (tail : Text) (htail : tail = [] ∨ blockMarkerAt tail = true)
    (caps : Caps) (s0 : Text) (u v : Text) (hs0 : s0 = v ++ (u ++ tail))
    (hu : ∀ a b, u = a ++ b → b ≠ [] → blockMarkerAt (b ++ tail) = false) :
    starLazy (fun _ => true) (u ++ tail) caps
      (fun s1 caps1 => (Regex.seq (.look (.alt blockStart .eos)) .eps).run s1
        (caps1.set 5 (s0.take (s0.length - s1.length))) accept) =
      some (tail, caps.set 5 (v ++ u)) := by
  induction u generalizing v with
  | nil =>
    apply starLazy_of_some
    simp only [List.nil_append] at hs0 ⊢
    rw [hs0, take_length_sub, run_seq, look_run]
    have : (blockMarkerAt tail || tail.isEmpty) = true := by
      rcases htail with rfl | h
      · rfl
      · simp [h]
    rw [if_pos this]
    simp [Regex.run, accept]
  | cons c cs ih =>
    have hfail : (blockMarkerAt (c :: cs ++ tail) || (c :: cs ++ tail).isEmpty) = false := by
      rw [hu [] (c :: cs) rfl (List.cons_ne_nil _ _)]
      rfl
    have ih2 := ih (v ++ [c]) (by simp [hs0]) (fun a b hab hb => hu (c :: a) b (by simp [hab]) hb)
    rw [List.cons_append, starLazy_cons, run_seq, look_run]
    rw [List.cons_append] at hfail
    simp only [hfail]
    simpa using ih2

theorem dropWhile_space_star (t : Text) : ('*' :: t).dropWhile isSpace = '*' :: t :=
  List.dropWhile_cons_of_neg (by simp [star_not_space])

theorem dropWhile_space_tail (tail : Text) (htail : tail = [] ∨ blockMarkerAt tail = true) :
    tail.dropWhile isSpace = tail := by
  rcases htail with rfl | h
  · rfl
  · obtain ⟨t, rfl⟩ := blockMarkerAt_stars tail h
    exact dropWhile_space_star _

/-- The last stage of the pattern, `\s*(.*?)(?=\*\*\d+\.|$)`: the description runs up
to the next numbered block or the end of the text. -/
theorem desc_stage (tail : Text) (htail : tail = [] ∨ blockMarkerAt tail = true)
    (s : Text) (hs : hasBlockMarker s = false) (caps : Caps) :
    (Regex.cat [.star .space, .group 5 (.lazyStar .any), .look (.alt blockStart .eos)]).run
      (s ++ tail) caps accept = some (tail, caps.set 5 (s.dropWhile isSpace)) := by
  have ht2 : tail = [] ∨ ∃ t, tail = '*' :: '*' :: t := by
    rcases htail with h | h
    · exact Or.inl h
    · exact Or.inr (blockMarkerAt_stars tail h)
  have hu : ∀ a b, s.dropWhile isSpace = a ++ b → b ≠ [] → blockMarkerAt (b ++ tail) = false := by
    intro a b hab hb
    rw [blockMarkerAt_append b tail ht2 hb]
    apply hasBlockMarker_suffix (s.takeWhile isSpace ++ a) b _ hb
    rw [List.append_assoc, ← hab, List.takeWhile_append_dropWhile]
    exact hs
  have key := starLazy_desc tail htail caps (s.dropWhile isSpace ++ tail) (s.dropWhile isSpace) []
    rfl hu
  simp only [Regex.cat, Regex.run, test_space, test_any]
  apply starGreedy_max
  rw [dropWhile_append_fixed s tail (dropWhile_space_tail tail htail)]
  simpa [Regex.run] using key

/-- The head of the pattern, `\*\*(\d+)\.\s*` followed by a literal `m` (here
`Title:**`). -/
theorem header_stage (L : List Regex) (m num gap X : Text) (caps : Caps) (r : MatchResult)
    (hnum : num ≠ []) (hd : ∀ c ∈ num, isDigit c = true) (hg : ∀ c ∈ gap, isSpace c = true)
    (hm : (m ++ X).dropWhile isSpace = m ++ X)
    (hr : (Regex.cat L).run X (caps.set 1 num) accept = some r) :
    (Regex.cat (.str "**".toList :: .group 1 (.seq (.cls .digit) (.star .digit)) :: .char '.' ::
      .star .space :: .str m :: L)).run
      ("**".toList ++ (num ++ ('.' :: (gap ++ (m ++ X))))) caps accept
      = some r := by
  cases num with
  | nil => exact absurd rfl hnum
  | cons d ds =>
    have hd0 : isDigit d = true := hd d (List.mem_cons_self _ _)
    have hds : ∀ c ∈ ds, isDigit c = true := fun c hc => hd c (List.mem_cons_of_mem _ hc)
    simp only [Regex.cat]
    rw [run_seq, run_str_append]
    simp only [Regex.run, test_digit, test_space, List.cons_append, hd0, if_true]
    apply starGreedy_max
    rw [List.dropWhile_append_of_pos hds, List.dropWhile_cons_of_neg (by decide)]
    simp only [if_true]
    apply starGreedy_max
    rw [List.dropWhile_append_of_pos hg, hm, run_str_append]
    have hcap : List.take ((d :: (ds ++ '.' :: (gap ++ (m ++ X)))).length -
        ('.' :: (gap ++ (m ++ X))).length)
        (d :: (ds ++ '.' :: (gap ++ (m ++ X)))) = d :: ds := by
      have := take_length_sub (d :: ds) ('.' :: (gap ++ (m ++ X)))
      simpa using this
    rw [hcap]
    exact hr

/-! ## Facts about `trim` and `split` -/

theorem trim_dropWhile (s : Text) : trim (s.dropWhile isSpace) = trim s := by
  simp [trim, List.dropWhile_idempotent]

theorem trim_cons_space (a : Char) (p : Text) (ha : isSpace a = true) :
    trim (a :: p) = trim p := by
  simp [trim, List.dropWhile_cons_of_pos ha]

theorem trim_concat_space (a : Char) (p : Text) (ha : isSpace a = true) :
    trim (p ++ [a]) = trim p := by
  unfold trim
  rw [List.dropWhile_append]
  split
  · rename_i h
    simp only [List.isEmpty_iff] at h
    simp [h, List.dropWhile_cons_of_pos ha]
  · rw [List.rdropWhile_concat_pos _ _ _ ha]

theorem trim_rdropWhile (s : Text) : trim (s.rdropWhile isSpace) = trim s := by
  induction s using List.reverseRecOn with
  | nil => rfl
  | append_singleton l a ih =>
    by_cases ha : isSpace a = true
    · rw [List.rdropWhile_concat_pos _ _ _ ha, ih, trim_concat_space a l ha]
    · rw [List.rdropWhile_concat_neg _ _ _ ha]

theorem trim_trim (s : Text) : trim (trim s) = trim s := by
  have h : trim s = (s.dropWhile isSpace).rdropWhile isSpace := rfl
  rw [h, trim_rdropWhile, trim_dropWhile]
  rfl

theorem comma_not_space : isSpace ',' = false := by decide

theorem split_ne_nil (sep : Char) (s : Text) : split sep s ≠ [] := by
  cases s with
  | nil => simp [split]
  | cons c cs =>
    simp only [split]
    split
    · simp
    · split <;> simp

theorem split_cons_space (a : Char) (c : Text) (ha : isSpace a = true) :
    (split ',' (a :: c)).map trim = (split ',' c).map trim := by
  have hne : a ≠ ',' := by
    rintro rfl
    exact absurd ha (by decide)
  simp only [split, if_neg hne]
  cases h : split ',' c with
  | nil => exact absurd h (split_ne_nil _ _)
  | cons p ps => simp [trim_cons_space a p ha]

theorem split_concat (a : Char) (l : Text) (ha : a ≠ ',') :
    ∃ ps p, split ',' l = ps ++ [p] ∧ split ',' (l ++ [a]) = ps ++ [p ++ [a]] := by
  induction l with
  | nil => exact ⟨[], [], by simp [split], by simp [split, ha]⟩
  | cons x xs ih =>
    obtain ⟨ps, p, h1, h2⟩ := ih
    by_cases hx : x = ','
    · exact ⟨[] :: ps, p, by simp [split, hx, h1], by simp [split, hx, h2]⟩
    · cases ps with
      | nil => exact ⟨[], x :: p, by simp [split, hx, h1], by simp [split, hx, h2]⟩
      | cons q qs => exact ⟨(x :: q) :: qs, p, by simp [split, hx, h1], by simp [split, hx, h2]⟩

theorem split_concat_space (a : Char) (l : Text) (ha : isSpace a = true) :
    (split ',' (l ++ [a])).map trim = (split ',' l).map trim := by
  have hne : a ≠ ',' := by
    rintro rfl
    exact absurd ha (by decide)
  obtain ⟨ps, p, h1, h2⟩ := split_concat a l hne
  rw [h1, h2]
  simp [trim_concat_space a p ha]

theorem split_dropWhile (c : Text) :
    (split ',' (c.dropWhile isSpace)).map trim = (split ',' c).map trim := by
  induction c with
  | nil => rfl
  | cons a cs ih =>
    by_cases ha : isSpace a = true
    · rw [List.dropWhile_cons_of_pos ha, ih, split_cons_space a cs ha]
    · rw [List.dropWhile_cons_of_neg ha]

theorem split_rdropWhile (c : Text) :
    (split ',' (c.rdropWhile isSpace)).map trim = (split ',' c).map trim := by
  induction c using List.reverseRecOn with
  | nil => rfl
  | append_singleton l a ih =>
    by_cases ha : isSpace a = true
    · rw [List.rdropWhile_concat_pos _ _ _ ha, ih, split_concat_space a l ha]
    · rw [List.rdropWhile_concat_neg _ _ _ ha]

/-- Splitting the trimmed text and trimming the pieces gives the same pieces as
splitting the text itself. -/
theorem split_trim (c : Text) : (split ',' (trim c)).map trim = (split ',' c).map trim := by
  have h : trim c = (c.dropWhile isSpace).rdropWhile isSpace := rfl
  rw [h, split_rdropWhile, split_dropWhile]

/-! ## One well-formed block -/

theorem blockMarkerAt_text (b : Block) (hb : b.WellFormed) (tail : Text) :
    blockMarkerAt (b.text ++ tail) = true := by
  obtain ⟨hnum, hdig, -⟩ := hb
  have h2 : "**".toList = ['*', '*'] := rfl
  have h1 : ".".toList = ['.'] := rfl
  cases hn : b.number with
  | nil => exact absurd hn hnum
  | cons d ds =>
    rw [hn] at hdig
    simp only [List.all_cons, Bool.and_eq_true, List.all_eq_true] at hdig
    simp only [Block.text, hn, h2, h1, List.append_assoc, List.cons_append, List.nil_append,
      blockMarkerAt, hdig.1, beq_self_eq_true, Bool.true_and]
    rw [List.dropWhile_append_of_pos hdig.2, List.dropWhile_cons_of_neg (by decide)]
    rfl

/-- A match of `markdownRegex` at the front of a well-formed block, followed by the end
of the text or by another block, consumes exactly the block and yields its entry. -/
theorem run_block (b : Block) (hb : b.WellFormed) (tail : Text)
    (htail : tail = [] ∨ blockMarkerAt tail = true) :
    ∃ caps, markdownRegex.run (b.text ++ tail) noCaps accept = some (tail, caps) ∧
      questionOfMatch caps = b.entry := by
  obtain ⟨hnum, hdig, hgap, ht, hdf, hc, hdesc⟩ := hb
  simp only [List.all_eq_true] at hdig hgap
  have h5 := desc_stage tail htail b.description hdesc
    ((((noCaps.set 1 b.number).set 2 (trim b.title)).set 3 (trim b.difficulty)).set 4
      (trim b.concepts))
  have h4 := field_stage "**Description:**".toList _ accept (b.description ++ tail)
    (((noCaps.set 1 b.number).set 2 (trim b.title)).set 3 (trim b.difficulty)) 4 _
    (dropWhile_space_star _) b.concepts hc h5
  have h3 := field_stage "**Concepts:**".toList _ accept _
    ((noCaps.set 1 b.number).set 2 (trim b.title)) 3 _
    (dropWhile_space_star _) b.difficulty hdf h4
  have h2 := field_stage "**Difficulty:**".toList _ accept _
    (noCaps.set 1 b.number) 2 _
    (dropWhile_space_star _) b.title ht h3
  have h1 := header_stage _ "Title:**".toList b.number b.gap _ noCaps _ hnum hdig hgap
    (List.dropWhile_cons_of_neg (by decide)) h2
  refine ⟨((((noCaps.set 1 b.number).set 2 (trim b.title)).set 3 (trim b.difficulty)).set 4
      (trim b.concepts)).set 5 (b.description.dropWhile isSpace), ?_, ?_⟩
  · have hdot : ".".toList = ['.'] := rfl
    simp only [Block.text, List.append_assoc, hdot, List.cons_append, List.nil_append]
    exact h1
  · simp only [questionOfMatch, Block.entry, noCaps, List.replicate, List.set, List.getD_cons_succ,
      List.getD_cons_zero, trim_trim, trim_dropWhile, split_trim]

/-! ## Every match consumes input: the parse loop terminates -/

theorem starGreedy_length (p : Char → Bool) (s : Text) (caps : Caps) (k : Cont) (res : MatchResult)
    (h : starGreedy p s caps k = some res) :
    ∃ s1 caps1, s1.length ≤ s.length ∧ k s1 caps1 = some res := by
  induction s with
  | nil => exact ⟨[], caps, le_refl _, by simpa [starGreedy] using h⟩
  | cons c cs ih =>
    rw [starGreedy_cons] at h
    by_cases hc : p c = true
    · rw [if_pos hc] at h
      cases hrec : starGreedy p cs caps k with
      | some r =>
        rw [hrec] at h
        simp only [Option.some.injEq] at h
        rw [h] at hrec
        obtain ⟨s1, caps1, hl, hk⟩ := ih hrec
        exact ⟨s1, caps1, Nat.le_succ_of_le hl, hk⟩
      | none =>
        rw [hrec] at h
        exact ⟨c :: cs, caps, le_refl _, h⟩
    · rw [if_neg hc] at h
      exact ⟨c :: cs, caps, le_refl _, h⟩

theorem starLazy_length (p : Char → Bool) (s : Text) (caps : Caps) (k : Cont) (res : MatchResult)
    (h : starLazy p s caps k = some res) :
    ∃ s1 caps1, s1.length ≤ s.length ∧ k s1 caps1 = some res := by
  induction s with
  | nil => exact ⟨[], caps, le_refl _, by simpa [starLazy] using h⟩
  | cons c cs ih =>
    rw [starLazy_cons] at h
    cases hk : k (c :: cs) caps with
    | some r =>
      rw [hk] at h
      refine ⟨c :: cs, caps, le_refl _, ?_⟩
      rw [hk]
      simpa using h
    | none =>
      rw [hk] at h
      by_cases hc : p c = true
      · simp only [hc, if_true] at h
        obtain ⟨s1, caps1, hl, hk1⟩ := ih h
        exact ⟨s1, caps1, Nat.le_succ_of_le hl, hk1⟩
      · simp [hc] at h

/-- A successful run hands to its continuation an input that is not longer than the
one it started from. -/
theorem run_length (r : Regex) : ∀ (s : Text) (caps : Caps) (k : Cont) (res : MatchResult),
    r.run s caps k = some res → ∃ s1 caps1, s1.length ≤ s.length ∧ k s1 caps1 = some res := by
  induction r with
  | eps => exact fun s caps k res h => ⟨s, caps, le_refl _, h⟩
  | char c =>
    intro s caps k res h
    cases s with
    | nil => simp [Regex.run] at h
    | cons d ds =>
      by_cases hd : d = c
      · exact ⟨ds, caps, Nat.le_succ _, by simpa [Regex.run, hd] using h⟩
      · simp [Regex.run, hd] at h
  | cls cl =>
    intro s caps k res h
    cases s with
    | nil => simp [Regex.run] at h
    | cons d ds =>
      by_cases hd : cl.test d = true
      · exact ⟨ds, caps, Nat.le_succ _, by simpa [Regex.run, hd] using h⟩
      · simp [Regex.run, hd] at h
  | star cl => exact fun s caps k res h => starGreedy_length _ s caps k res h
  | lazyStar cl => exact fun s caps k res h => starLazy_length _ s caps k res h
  | seq a b iha ihb =>
    intro s caps k res h
    obtain ⟨s1, caps1, hl1, h1⟩ := iha s caps _ res h
    obtain ⟨s2, caps2, hl2, h2⟩ := ihb s1 caps1 k res h1
    exact ⟨s2, caps2, le_trans hl2 hl1, h2⟩
  | alt a b iha ihb =>
    intro s caps k res h
    rw [run_alt] at h
    cases ha : a.run s caps k with
    | some r =>
      rw [ha] at h
      apply iha s caps k res
      rw [ha]
      simpa using h
    | none =>
      rw [ha] at h
      exact ihb s caps k res h
  | group i r ih =>
    intro s caps k res h
    obtain ⟨s1, caps1, hl1, h1⟩ := ih s caps _ res h
    exact ⟨s1, _, hl1, h1⟩
  | look r _ =>
    intro s caps k res h
    rw [run_look] at h
    cases hr : r.run s caps accept with
    | some x =>
      rw [hr] at h
      exact ⟨s, x.2, le_refl _, h⟩
    | none =>
      rw [hr] at h
      simp at h
  | eos =>
    intro s caps k res h
    cases s with
    | nil => exact ⟨[], caps, le_refl _, by simpa [Regex.run] using h⟩
    | cons d ds => simp [Regex.run] at h

/-- A match of `markdownRegex` consumes at least one character. -/
theorem markdownRegex_run_shorter (s rest : Text) (caps : Caps)
    (h : markdownRegex.run s noCaps accept = some (rest, caps)) : rest.length < s.length := by
  have hshape : ∃ A B, markdownRegex = .seq (.seq (.char '*') A) B := ⟨_, _, rfl⟩
  obtain ⟨A, B, hAB⟩ := hshape
  rw [hAB] at h
  cases s with
  | nil => simp [Regex.run] at h
  | cons d ds =>
    by_cases hd : d = '*'
    · have h1 : (Regex.seq A B).run ds noCaps accept = some (rest, caps) := by
        simpa [Regex.run, hd] using h
      obtain ⟨s1, caps1, hl, hk⟩ := run_length _ ds noCaps accept _ h1
      simp only [accept, Option.some.injEq, Prod.mk.injEq] at hk
      rw [← hk.1]
      exact Nat.lt_succ_of_le hl
    · simp [Regex.run, hd] at h

theorem exec_shorter (s rest : Text) (caps : Caps)
    (h : exec markdownRegex s = some (rest, caps)) : rest.length < s.length := by
  induction s with
  | nil => exact markdownRegex_run_shorter [] rest caps (by simpa [exec] using h)
  | cons c cs ih =>
    simp only [exec] at h
    cases hr : markdownRegex.run (c :: cs) noCaps accept with
    | some x =>
      rw [hr] at h
      simp only [Option.some.injEq] at h
      rw [h] at hr
      exact markdownRegex_run_shorter _ rest caps hr
    | none =>
      rw [hr] at h
      exact Nat.lt_succ_of_lt (ih h)

/-- With fuel above the length of the text the parse loop returns. -/
theorem parseLoop_total (fuel : Nat) : ∀ s : Text, s.length < fuel →
    ∃ qs, parseLoop fuel s = some qs := by
  induction fuel with
  | zero => intro s hs; exact absurd hs (Nat.not_lt_zero _)
  | succ n ih =>
    intro s hs
    simp only [parseLoop]
    cases he : exec markdownRegex s with
    | none => exact ⟨[], rfl⟩
    | some x =>
      obtain ⟨rest, caps⟩ := x
      have hlt := exec_shorter s rest caps he
      obtain ⟨qs, hqs⟩ := ih rest (by omega)
      exact ⟨questionOfMatch caps :: qs, by simp [hqs]⟩

/-- The parser returns on every text. -/
theorem parseAIPlan_total (s : Text) : ∃ qs, parseAIPlan s = some qs :=
  parseLoop_total _ s (Nat.lt_succ_self _)

/-- Every entry of the parser comes from one match. -/
theorem parseLoop_mem (fuel : Nat) : ∀ (s : Text) (qs : List Question),
    parseLoop fuel s = some qs → ∀ q ∈ qs, ∃ caps, q = questionOfMatch caps := by
  induction fuel with
  | zero => intro s qs h; simp [parseLoop] at h
  | succ n ih =>
    intro s qs h q hq
    simp only [parseLoop] at h
    cases he : exec markdownRegex s with
    | none =>
      rw [he] at h
      simp only [Option.some.injEq] at h
      rw [← h] at hq
      simp at hq
    | some x =>
      obtain ⟨rest, caps⟩ := x
      rw [he] at h
      simp only [Option.map_eq_some'] at h
      obtain ⟨qs1, hqs1, rfl⟩ := h
      rcases List.mem_cons.1 hq with rfl | hq1
      · exact ⟨caps, rfl⟩
      · exact ih rest qs1 hqs1 q hq1

/-! ## A text made of well-formed blocks -/

theorem exec_nil : exec markdownRegex [] = none := by decide

theorem blocksText_tail (bs : List Block) (h : ∀ b ∈ bs, b.WellFormed) :
    blocksText bs = [] ∨ blockMarkerAt (blocksText bs) = true := by
  cases bs with
  | nil => exact Or.inl rfl
  | cons b bs => exact Or.inr (blockMarkerAt_text b (h b (List.mem_cons_self _ _)) _)

theorem parseLoop_blocks (bs : List Block) (h : ∀ b ∈ bs, b.WellFormed) :
    ∀ fuel, bs.length < fuel → parseLoop fuel (blocksText bs) = some (bs.map Block.entry) := by
  induction bs with
  | nil =>
    intro fuel hf
    cases fuel with
    | zero => exact absurd hf (Nat.not_lt_zero _)
    | succ n => simp [parseLoop, blocksText, exec_nil]
  | cons b bs ih =>
    intro fuel hf
    cases fuel with
    | zero => exact absurd hf (Nat.not_lt_zero _)
    | succ n =>
      have hb := h b (List.mem_cons_self _ _)
      have hbs : ∀ b1 ∈ bs, b1.WellFormed := fun b1 hb1 => h b1 (List.mem_cons_of_mem _ hb1)
      obtain ⟨caps, hrun, hq⟩ := run_block b hb (blocksText bs) (blocksText_tail bs hbs)
      have hexec := exec_of_run _ _ _ hrun
      have hrec := ih hbs n (by simpa using hf)
      simp only [blocksText, parseLoop, hexec, hrec, hq, Option.map_some', List.map_cons]

theorem blocksText_length (bs : List Block) : bs.length ≤ (blocksText bs).length := by
  induction bs with
  | nil => simp
  | cons b bs ih =>
    have : 0 < b.text.length := by simp [Block.text]
    simp only [blocksText, List.length_cons, List.length_append]
    omega

/-! ## The parser on well-formed responses -/

/-- C1: on a response text made of exactly `k` well-formed numbered blocks, `parseAIPlan`
returns exactly `k` entries in the order of the blocks; entry `i` has the trimmed title,
difficulty and description of block `i`, and as concepts the concepts text of block `i`
split on commas with each piece trimmed. -/
theorem parseAIPlan_wellFormed_blocks (bs : List Block) (h : ∀ b ∈ bs, b.WellFormed) :
    parseAIPlan (blocksText bs) = some (bs.map Block.entry) :=
  parseLoop_blocks bs h _ (Nat.lt_succ_of_le (blocksText_length bs))

/-- Witness of C1 on a text of two blocks. -/
theorem parseAIPlan_wellFormed_blocks_witness :
    (∀ b ∈ sampleBlocks, b.WellFormed) ∧
    parseAIPlan (blocksText sampleBlocks) =
      some [ { title := "Top N per group".toList, difficulty := "Hard".toList,
               concepts := ["Window Functions".toList, "CTE".toList],
               description := "Find the top 3 salaries.".toList,
               category := "Problem Solving".toList, completed := false },
             { title := "Gaps".toList, difficulty := "Easy".toList,
               concepts := ["Joins".toList],
               description := "List missing ids.".toList,
               category := "Problem Solving".toList, completed := false } ] :=
  ⟨by decide!, parseAIPlan_wellFormed_blocks sampleBlocks (by decide!)⟩

/-! ## The generator -/

theorem parseAIPlan_of_exec_none (t : Text) (h : exec markdownRegex t = none) :
    parseAIPlan t = some [] := by
  simp [parseAIPlan, parseLoop, h]

theorem questionOfMatch_concepts (caps : Caps) : (questionOfMatch caps).concepts ≠ [] := by
  simp [questionOfMatch, split_ne_nil]

/-- The generator, case by case. -/
theorem generator_cases (model : Model) (u : UserInput) (last : Option Text) :
    AIGenerator.generateSQLPrepPlan model u last = (some (.returned getDefaultQuestions), last) ∨
    (∃ prompt, constructPrompt u = .ok prompt ∧ model prompt = .throwsNullish ∧
      AIGenerator.generateSQLPrepPlan model u last = (some (.rejected .typeError), last)) ∨
    ∃ prompt t, constructPrompt u = .ok prompt ∧ model prompt = .text t ∧
      AIGenerator.generateSQLPrepPlan model u last =
        if (t.isEmpty || (trim t).length == 0) = true then
          (some (.returned getDefaultQuestions), some t)
        else
          match parseAIPlan t with
          | none => (none, some t)
          | some parsedPlan =>
            if (parsedPlan.length == 0) = true then
              (some (.returned getDefaultQuestions), some t)
            else (some (.returned parsedPlan), some t) := by
  rcases hv : validateInput u with e | a
  · exact Or.inl (by simp only [AIGenerator.generateSQLPrepPlan, hv])
  · rcases hp : constructPrompt u with e | prompt
    · exact Or.inl (by simp only [AIGenerator.generateSQLPrepPlan, hv, hp])
    · rcases hm : model prompt with _ | _ | t | _
      · exact Or.inl (by simp only [AIGenerator.generateSQLPrepPlan, hv, hp, hm])
      · exact Or.inl (by simp only [AIGenerator.generateSQLPrepPlan, hv, hp, hm])
      · exact Or.inr (Or.inr ⟨prompt, t, rfl, hm,
          by simp only [AIGenerator.generateSQLPrepPlan, hv, hp, hm]⟩)
      · exact Or.inr (Or.inl ⟨prompt, rfl, hm,
          by simp only [AIGenerator.generateSQLPrepPlan, hv, hp, hm]⟩)

/-- The generator always settles: it rejects when the model call has thrown `undefined`
or `null`, and otherwise returns a non-empty list whose records have at least one
concept. -/
theorem generator_returns (model : Model) (u : UserInput) (last : Option Text) :
    (∃ prompt, constructPrompt u = .ok prompt ∧ model prompt = .throwsNullish ∧
      AIGenerator.generateSQLPrepPlan model u last = (some (.rejected .typeError), last)) ∨
    ∃ qs last1, AIGenerator.generateSQLPrepPlan model u last = (some (.returned qs), last1) ∧
      qs ≠ [] ∧ (qs = getDefaultQuestions ∨ ∃ t, parseAIPlan t = some qs) ∧
      ∀ q ∈ qs, q.concepts ≠ [] := by
  have hdef : getDefaultQuestions ≠ [] ∧
      (getDefaultQuestions = getDefaultQuestions ∨
        ∃ t, parseAIPlan t = some getDefaultQuestions) ∧
      ∀ q ∈ getDefaultQuestions, q.concepts ≠ [] := ⟨by decide, Or.inl rfl, by decide⟩
  rcases generator_cases model u last with h | h | ⟨prompt, t, -, -, h⟩
  · exact Or.inr ⟨_, _, h, hdef⟩
  · exact Or.inl h
  · right
    rw [h]
    by_cases hc : (t.isEmpty || (trim t).length == 0) = true
    · rw [if_pos hc]
      exact ⟨_, _, rfl, hdef⟩
    · obtain ⟨qs, hqs⟩ := parseAIPlan_total t
      rw [if_neg hc, hqs]
      by_cases hl : (qs.length == 0) = true
      · simp only [hl, if_true]
        exact ⟨_, _, rfl, hdef⟩
      · simp only [hl]
        refine ⟨_, _, rfl, ?_, Or.inr ⟨t, hqs⟩, ?_⟩
        · intro h
          simp [h] at hl
        · intro q hq
          obtain ⟨caps, rfl⟩ := parseLoop_mem _ t qs hqs q hq
          exact questionOfMatch_concepts caps

/-- C2: when the text returned by the model is empty or white space only, or the
template matches nowhere in it, the generator returns the two-item default list
verbatim: first the item of difficulty Hard, then the item of difficulty Medium. -/
theorem generator_default_on_unparsed (model : Model) (u : UserInput) (last : Option Text)
    (t : Text) (hmodel : ∀ prompt, model prompt = .text t)
    (ht : trim t = [] ∨ exec markdownRegex t = none) :
    (AIGenerator.generateSQLPrepPlan model u last).1 = some (.returned getDefaultQuestions) ∧
      getDefaultQuestions.length = 2 ∧
      getDefaultQuestions.map (fun q => q.difficulty) = ["Hard".toList, "Medium".toList] := by
  refine ⟨?_, rfl, rfl⟩
  rcases generator_cases model u last with h | ⟨prompt, -, hm, -⟩ | ⟨prompt, t1, -, hm, h⟩
  · rw [h]
  · rw [hmodel prompt] at hm
    cases hm
  · rw [hmodel prompt] at hm
    cases hm
    rw [h]
    by_cases hc : (t.isEmpty || (trim t).length == 0) = true
    · rw [if_pos hc]
    · rcases ht with h1 | h1
      · simp [h1] at hc
      · simp [hc, parseAIPlan_of_exec_none t h1]

/-- Witness of C2: a response in free prose, where the template matches nowhere. -/
theorem generator_default_on_unparsed_witness :
    exec markdownRegex "Sorry, I cannot help with that.".toList = none ∧
    (AIGenerator.generateSQLPrepPlan (fun _ => .text "Sorry, I cannot help with that.".toList)
      sampleInput none).1 = some (.returned getDefaultQuestions) :=
  ⟨by decide!, (generator_default_on_unparsed _ sampleInput none
    "Sorry, I cannot help with that.".toList (fun _ => rfl) (Or.inr (by decide!))).1⟩

/-! ## The generate-plan operation -/

theorem not_valid_iff (body : UserInput) :
    (!body.yearsOfExperience.truthy || !body.currentCTC.truthy ||
      !body.targetCompanies.truthy || !body.timeCommitment.truthy) = !body.valid := by
  unfold UserInput.valid
  cases body.yearsOfExperience.truthy <;> cases body.currentCTC.truthy <;>
    cases body.targetCompanies.truthy <;> cases body.timeCommitment.truthy <;> rfl

/-- A request with a falsy field is answered 400 and changes nothing. -/
theorem controller_invalid (model : Model) (pers : Persistence) (now : Nat) (userId : UserId)
    (body : UserInput) (st : ServerState) (h : body.valid = false) :
    Controller.generateSQLPrepPlan model pers now userId body st =
      some (.badRequest (detailsOf body), st) := by
  unfold Controller.generateSQLPrepPlan
  rw [not_valid_iff, h]
  rfl

/-- A valid request, once the generator has returned a non-empty list. -/
theorem controller_valid (model : Model) (pers : Persistence) (now : Nat) (userId : UserId)
    (body : UserInput) (st : ServerState) (h : body.valid = true)
    (qs : List Question) (last : Option Text)
    (hgen : AIGenerator.generateSQLPrepPlan model body st.lastGeneratedResponse =
      (some (.returned qs), last))
    (hne : qs ≠ []) :
    Controller.generateSQLPrepPlan model pers now userId body st =
      match pers with
      | .ok =>
        some (.created (qs.map (fun q => validateQuestion q.toRaw)) (metadataOf body now)
          (aiResponseOf last),
          stateAfterGenerate userId body (qs.map (fun q => validateQuestion q.toRaw)) now last st)
      | .userSaveFails =>
        some (.failure 500 "Error generating SQL prep plan",
          stateAfterGenerate userId body (qs.map (fun q => validateQuestion q.toRaw)) now last st)
      | .findFails =>
        some (.failure 500 "Error generating SQL prep plan",
          { st with lastGeneratedResponse := last })
      | .saveFails =>
        some (.failure 500 "Error generating SQL prep plan",
          { st with lastGeneratedResponse := last }) := by
  have hlen : (qs.length == 0) = false := by
    cases qs with
    | nil => exact absurd rfl hne
    | cons q qs => rfl
  unfold Controller.generateSQLPrepPlan
  rw [not_valid_iff, h, hgen]
  simp only [Bool.not_true, Bool.false_eq_true, if_false, hlen]
  cases pers <;> rfl

/-- A valid request whose generator call rejects: the handler of the operation answers
500 "Error generating SQL prep plan", whatever the storage would have done. -/
theorem controller_rejected (model : Model) (pers : Persistence) (now : Nat) (userId : UserId)
    (body : UserInput) (st : ServerState) (h : body.valid = true)
    (e : GenError) (last : Option Text)
    (hgen : AIGenerator.generateSQLPrepPlan model body st.lastGeneratedResponse =
      (some (.rejected e), last)) :
    Controller.generateSQLPrepPlan model pers now userId body st =
      some (.failure 500 "Error generating SQL prep plan",
        { st with lastGeneratedResponse := last }) := by
  unfold Controller.generateSQLPrepPlan
  rw [not_valid_iff, h, hgen]
  rfl

theorem validate_defaults :
    getDefaultQuestions.map (fun q => validateQuestion q.toRaw) = getDefaultQuestions := by
  decide

/-- When the model call throws an `Error` object or gives no response object, the
generator returns the default list and leaves the last response as it was, and with
working persistence the generate-plan operation answers with the success result whose
`questions` are the two default questions, field for field. -/
theorem controller_defaults_when_model_fails (model : Model) (now : Nat) (userId : UserId)
    (body : UserInput) (st : ServerState) (hvalid : body.valid = true)
    (hmodel : ∀ prompt, model prompt = .throws ∨ model prompt = .noResponse) :
    AIGenerator.generateSQLPrepPlan model body st.lastGeneratedResponse =
      (some (.returned getDefaultQuestions), st.lastGeneratedResponse) ∧
    Controller.generateSQLPrepPlan model .ok now userId body st =
      some (.created getDefaultQuestions (metadataOf body now)
        (aiResponseOf st.lastGeneratedResponse),
        stateAfterGenerate userId body getDefaultQuestions now st.lastGeneratedResponse st) := by
  have hgen : AIGenerator.generateSQLPrepPlan model body st.lastGeneratedResponse =
      (some (.returned getDefaultQuestions), st.lastGeneratedResponse) := by
    rcases generator_cases model body st.lastGeneratedResponse with
      h | ⟨prompt, -, hm, -⟩ | ⟨prompt, t, -, hm, -⟩
    · exact h
    · rcases hmodel prompt with h | h <;> rw [h] at hm <;> cases hm
    · rcases hmodel prompt with h | h <;> rw [h] at hm <;> cases hm
  refine ⟨hgen, ?_⟩
  rw [controller_valid model .ok now userId body st hvalid _ _ hgen (by decide),
    validate_defaults]

/-- C3 does not hold of the code when the model call throws `undefined` or `null`: for
the valid input of the end-to-end example the handler of the generator itself throws
while reading `error.message`, so the generator propagates an error instead of returning
the default list, and the generate-plan operation, with working persistence as with any
other, answers 500 "Error generating SQL prep plan" where the claim expects the success
result carrying the two default questions; nothing is stored. -/
theorem generate_fails_when_model_throws_nullish :
    sampleInput.valid = true ∧
    AIGenerator.generateSQLPrepPlan (fun _ => .throwsNullish) sampleInput none =
      (some (.rejected .typeError), none) ∧
    (∀ (pers : Persistence) (now : Nat) (userId : UserId),
      Controller.generateSQLPrepPlan (fun _ => .throwsNullish) pers now userId sampleInput
          emptyState =
        some (.failure 500 "Error generating SQL prep plan", emptyState)) ∧
    ∀ (now : Nat) (userId : UserId),
      Controller.generateSQLPrepPlan (fun _ => .throwsNullish) .ok now userId sampleInput
          emptyState ≠
        some (.created getDefaultQuestions (metadataOf sampleInput now)
          "No AI response available".toList,
          stateAfterGenerate userId sampleInput getDefaultQuestions now none emptyState) := by
  have hgen : AIGenerator.generateSQLPrepPlan (fun _ => .throwsNullish) sampleInput
      emptyState.lastGeneratedResponse = (some (.rejected .typeError), none) := by decide
  have hctl : ∀ (pers : Persistence) (now : Nat) (userId : UserId),
      Controller.generateSQLPrepPlan (fun _ => .throwsNullish) pers now userId sampleInput
          emptyState =
        some (.failure 500 "Error generating SQL prep plan", emptyState) := by
    intro pers now userId
    rw [controller_rejected _ pers now userId sampleInput emptyState (by decide) _ _ hgen]
    rfl
  refine ⟨by decide, hgen, hctl, ?_⟩
  intro now userId h
  rw [hctl] at h
  cases h

theorem orElseText_ne_nil (x : Option Text) (fallback : Text) (h : fallback ≠ []) :
    orElseText x fallback ≠ [] := by
  unfold orElseText
  cases x with
  | none => exact h
  | some t =>
    cases t with
    | nil => simpa using h
    | cons c cs => simp

/-- C4: for every valid questionnaire input, every model outcome and every persistence
outcome the generate-plan operation returns an answer, and whenever that answer carries
a question list (the success result) the list is non-empty and each question in it has a
non-empty title, a non-empty description, at least one concept and `completed = false`.
The answer is the success result exactly when persistence works and the model call has
not thrown `undefined` or `null`. -/
theorem generate_questions_nonempty (model : Model) (pers : Persistence) (now : Nat)
    (userId : UserId) (body : UserInput) (st : ServerState) (hvalid : body.valid = true) :
    ∃ resp st1, Controller.generateSQLPrepPlan model pers now userId body st = some (resp, st1) ∧
      ((∃ qs md ai, resp = .created qs md ai) ↔
        (pers = .ok ∧
          ∀ prompt, constructPrompt body = .ok prompt → model prompt ≠ .throwsNullish)) ∧
      ∀ qs md ai, resp = .created qs md ai →
        qs ≠ [] ∧ ∀ q ∈ qs, q.title ≠ [] ∧ q.description ≠ [] ∧ q.concepts ≠ [] ∧
          q.completed = false := by
  rcases generator_returns model body st.lastGeneratedResponse with
    ⟨prompt, hp, hm, hgen⟩ | ⟨gqs, last, hgen, hne, hsrc, hconc⟩
  · have hctl := controller_rejected model pers now userId body st hvalid _ _ hgen
    refine ⟨_, _, hctl, ⟨?_, ?_⟩, ?_⟩
    · rintro ⟨qs, md, ai, h⟩
      cases h
    · rintro ⟨-, h⟩
      exact absurd hm (h prompt hp)
    · intro qs md ai h
      cases h
  · have hctl := controller_valid model pers now userId body st hvalid gqs last hgen hne
    have hmodel : ∀ prompt, constructPrompt body = .ok prompt →
        model prompt ≠ .throwsNullish := by
      intro prompt hp hm
      rcases generator_cases model body st.lastGeneratedResponse with
        h | ⟨p1, hp1, hm1, h⟩ | ⟨p1, t, hp1, hm1, h⟩
      · have hv : validateInput body = .ok () := by
          revert hvalid
          unfold UserInput.valid validateInput
          cases body.yearsOfExperience.truthy <;> cases body.currentCTC.truthy <;>
            cases body.targetCompanies.truthy <;> cases body.timeCommitment.truthy <;>
            simp
        simp only [AIGenerator.generateSQLPrepPlan, hv, hp, hm] at h
        cases h
      · rw [hgen] at h
        cases h
      · rw [hp] at hp1
        cases hp1
        rw [hm] at hm1
        cases hm1
    have hgood : (gqs.map (fun q => validateQuestion q.toRaw)) ≠ [] ∧
        ∀ q ∈ gqs.map (fun q => validateQuestion q.toRaw),
          q.title ≠ [] ∧ q.description ≠ [] ∧ q.concepts ≠ [] ∧ q.completed = false := by
      refine ⟨by simpa using hne, ?_⟩
      intro q hq
      obtain ⟨g, hg, rfl⟩ := List.mem_map.1 hq
      have h1 : orElseText g.toRaw.title "Untitled Question".toList ≠ [] :=
        orElseText_ne_nil _ _ (by decide)
      have h2 : orElseText g.toRaw.description "No description provided".toList ≠ [] :=
        orElseText_ne_nil _ _ (by decide)
      exact ⟨h1, h2, hconc g hg, rfl⟩
    cases pers with
    | ok =>
      refine ⟨_, _, hctl, ⟨fun _ => ⟨rfl, hmodel⟩, fun _ => ⟨_, _, _, rfl⟩⟩, ?_⟩
      intro qs md ai h
      cases h
      exact hgood
    | findFails =>
      refine ⟨_, _, hctl, ⟨?_, ?_⟩, ?_⟩
      · rintro ⟨qs, md, ai, h⟩; cases h
      · rintro ⟨h, -⟩; cases h
      · intro qs md ai h; cases h
    | saveFails =>
      refine ⟨_, _, hctl, ⟨?_, ?_⟩, ?_⟩
      · rintro ⟨qs, md, ai, h⟩; cases h
      · rintro ⟨h, -⟩; cases h
      · intro qs md ai h; cases h
    | userSaveFails =>
      refine ⟨_, _, hctl, ⟨?_, ?_⟩, ?_⟩
      · rintro ⟨qs, md, ai, h⟩; cases h
      · rintro ⟨h, -⟩; cases h
      · intro qs md ai h; cases h

/-- Witness of C4: a model response of one block with an empty title. -/
theorem generate_questions_nonempty_witness :
    sampleInput.valid = true ∧
    ∃ resp st1, Controller.generateSQLPrepPlan (fun _ => .text emptyTitleText) .ok 1700 7
        sampleInput emptyState = some (resp, st1) ∧
      ((∃ qs md ai, resp = .created qs md ai) ↔
        (Persistence.ok = .ok ∧
          ∀ prompt, constructPrompt sampleInput = .ok prompt →
            (fun _ => ModelOutcome.text emptyTitleText) prompt ≠ .throwsNullish)) ∧
      ∀ qs md ai, resp = .created qs md ai →
        qs ≠ [] ∧ ∀ q ∈ qs, q.title ≠ [] ∧ q.description ≠ [] ∧ q.concepts ≠ [] ∧
          q.completed = false :=
  ⟨by decide, generate_questions_nonempty (fun _ => .text emptyTitleText) .ok 1700 7
    sampleInput emptyState (by decide)⟩

/-- C5, as stated, fails: a request in which all four fields are present, with
`currentCTC` equal to the empty string, is answered with the validation error. -/
theorem validation_rejects_present_empty :
    blankCTCInput.yearsOfExperience ≠ .undefined ∧ blankCTCInput.currentCTC ≠ .undefined ∧
    blankCTCInput.targetCompanies ≠ .undefined ∧ blankCTCInput.timeCommitment ≠ .undefined ∧
    Controller.generateSQLPrepPlan (fun _ => .throws) .ok 1700 7 blankCTCInput emptyState =
      some (.badRequest { yearsOfExperience := true, currentCTC := false,
                          targetCompanies := true, timeCommitment := true }, emptyState) := by
  decide

/-- C5, amended: the generate-plan operation fails with the validation error exactly
when at least one of the four fields is falsy (missing, `null`, `false`, zero or the
empty string). Then the detail map gives the truthiness of each field, the answer is the
same whatever the model is, and the state (plans and last response) is unchanged. When
all four fields are truthy the operation returns and its answer is not the validation
error. -/
theorem generate_validation (pers : Persistence) (now : Nat) (userId : UserId)
    (body : UserInput) (st : ServerState) :
    ((body.yearsOfExperience.truthy = false ∨ body.currentCTC.truthy = false ∨
        body.targetCompanies.truthy = false ∨ body.timeCommitment.truthy = false) →
      ∀ model : Model, Controller.generateSQLPrepPlan model pers now userId body st =
        some (.badRequest
          { yearsOfExperience := body.yearsOfExperience.truthy
            currentCTC := body.currentCTC.truthy
            targetCompanies := body.targetCompanies.truthy
            timeCommitment := body.timeCommitment.truthy }, st)) ∧
    ((body.yearsOfExperience.truthy = true ∧ body.currentCTC.truthy = true ∧
        body.targetCompanies.truthy = true ∧ body.timeCommitment.truthy = true) →
      ∀ model : Model, ∃ resp st1,
        Controller.generateSQLPrepPlan model pers now userId body st = some (resp, st1) ∧
        ∀ d, resp ≠ .badRequest d) := by
  constructor
  · intro h model
    apply controller_invalid
    unfold UserInput.valid
    rcases h with h | h | h | h <;> simp [h]
  · rintro ⟨h1, h2, h3, h4⟩ model
    have hvalid : body.valid = true := by simp [UserInput.valid, h1, h2, h3, h4]
    rcases generator_returns model body st.lastGeneratedResponse with
      ⟨prompt, -, -, hgen⟩ | ⟨gqs, last, hgen, hne, -, -⟩
    · exact ⟨_, _, controller_rejected model pers now userId body st hvalid _ _ hgen,
        fun d h => by cases h⟩
    · have hctl := controller_valid model pers now userId body st hvalid gqs last hgen hne
      cases pers <;> exact ⟨_, _, hctl, fun d h => by cases h⟩

/-- Witness of C5 (amended): the request with an empty `currentCTC`, and the request of
the end-to-end example. -/
theorem generate_validation_witness :
    (∀ model : Model, Controller.generateSQLPrepPlan model .ok 1700 7 blankCTCInput emptyState =
      some (.badRequest { yearsOfExperience := true, currentCTC := false,
                          targetCompanies := true, timeCommitment := true }, emptyState)) ∧
    (∀ model : Model, ∃ resp st1,
      Controller.generateSQLPrepPlan model .ok 1700 7 sampleInput emptyState = some (resp, st1) ∧
      ∀ d, resp ≠ .badRequest d) :=
  ⟨(generate_validation .ok 1700 7 blankCTCInput emptyState).1 (Or.inr (Or.inl (by decide))),
   (generate_validation .ok 1700 7 sampleInput emptyState).2 (by decide)⟩

/-- C6, as stated, fails: the generator produces a record whose title is present and
empty, and the normalised title is not that title but "Untitled Question". -/
theorem normalise_replaces_empty_title :
    (AIGenerator.generateSQLPrepPlan (fun _ => .text emptyTitleText) sampleInput none).1 =
      some (.returned [emptyTitleQuestion]) ∧
    emptyTitleQuestion.toRaw.title = some [] ∧
    (validateQuestion emptyTitleQuestion.toRaw).title = "Untitled Question".toList ∧
    (validateQuestion emptyTitleQuestion.toRaw).title ≠ emptyTitleQuestion.title := by
  decide!

/-- C6, amended: the question list of a success result is the generator's list mapped
through the normalisation, so it has the same length and order; a normalised question
has the title, difficulty, description and category of the record when they are present
and non-empty, else "Untitled Question", "Medium", "No description provided" and
"Problem Solving"; it has the concepts of the record when they are an array, else
`["SQL"]`; and `completed` is false whatever the record carries. -/
theorem generate_normalises (model : Model) (pers : Persistence) (now : Nat) (userId : UserId)
    (body : UserInput) (st st1 : ServerState) (qs : List Question) (md : Metadata) (ai : Text)
    (h : Controller.generateSQLPrepPlan model pers now userId body st =
      some (.created qs md ai, st1)) :
    (∃ gqs last,
      AIGenerator.generateSQLPrepPlan model body st.lastGeneratedResponse =
        (some (.returned gqs), last) ∧
      qs = gqs.map (fun q => validateQuestion q.toRaw) ∧ qs.length = gqs.length) ∧
    ∀ q : RawQuestion,
      (validateQuestion q).title =
        (match q.title with
         | some t => if t = [] then "Untitled Question".toList else t
         | none => "Untitled Question".toList) ∧
      (validateQuestion q).difficulty =
        (match q.difficulty with
         | some t => if t = [] then "Medium".toList else t
         | none => "Medium".toList) ∧
      (validateQuestion q).concepts =
        (match q.concepts with
         | some cs => cs
         | none => ["SQL".toList]) ∧
      (validateQuestion q).description =
        (match q.description with
         | some t => if t = [] then "No description provided".toList else t
         | none => "No description provided".toList) ∧
      (validateQuestion q).category =
        (match q.category with
         | some t => if t = [] then "Problem Solving".toList else t
         | none => "Problem Solving".toList) ∧
      (validateQuestion q).completed = false := by
  have horElse : ∀ (x : Option Text) (d : Text), orElseText x d =
      (match x with
       | some t => if t = [] then d else t
       | none => d) := by
    intro x d
    cases x with
    | none => rfl
    | some t => cases t <;> rfl
  constructor
  · by_cases hvalid : body.valid = true
    · rcases generator_returns model body st.lastGeneratedResponse with
        ⟨prompt, -, -, hgen⟩ | ⟨gqs, last, hgen, hne, -, -⟩
      · rw [controller_rejected model pers now userId body st hvalid _ _ hgen] at h
        simp at h
      · have hctl := controller_valid model pers now userId body st hvalid gqs last hgen hne
        rw [hctl] at h
        cases pers with
        | ok =>
          simp only [Option.some.injEq, Prod.mk.injEq, GenResponse.created.injEq] at h
          exact ⟨gqs, last, hgen, h.1.1.symm, by rw [← h.1.1, List.length_map]⟩
        | findFails => simp at h
        | saveFails => simp at h
        | userSaveFails => simp at h
    · rw [controller_invalid model pers now userId body st (by simpa using hvalid)] at h
      simp at h
  · intro q
    exact ⟨horElse _ _, horElse _ _, rfl, horElse _ _, horElse _ _, rfl⟩

/-- Witness of C6 (amended): the response of one block with an empty title. -/
theorem generate_normalises_witness :
    Controller.generateSQLPrepPlan (fun _ => .text emptyTitleText) .ok 1700 7 sampleInput
        emptyState =
      some (.created [{ emptyTitleQuestion with title := "Untitled Question".toList }]
        (metadataOf sampleInput 1700) emptyTitleText,
        stateAfterGenerate 7 sampleInput
          [{ emptyTitleQuestion with title := "Untitled Question".toList }] 1700
          (some emptyTitleText) emptyState) ∧
    (∃ gqs last,
      AIGenerator.generateSQLPrepPlan (fun _ => .text emptyTitleText) sampleInput
        emptyState.lastGeneratedResponse = (some (.returned gqs), last) ∧
      [{ emptyTitleQuestion with title := "Untitled Question".toList }] =
        gqs.map (fun q => validateQuestion q.toRaw) ∧
      [{ emptyTitleQuestion with title := "Untitled Question".toList }].length = gqs.length) :=
  ⟨by decide!, (generate_normalises (fun _ => .text emptyTitleText) .ok 1700 7 sampleInput emptyState
    (stateAfterGenerate 7 sampleInput
      [{ emptyTitleQuestion with title := "Untitled Question".toList }] 1700
      (some emptyTitleText) emptyState)
    [{ emptyTitleQuestion with title := "Untitled Question".toList }]
    (metadataOf sampleInput 1700) emptyTitleText (by decide!)).1⟩

/-! ## The plan store -/

theorem findOne_user (u : UserId) (plans : List PrepPlan) (p : PrepPlan)
    (h : findOne u plans = some p) : p.user = u := by
  have := List.find?_some h
  simpa using this

theorem findOne_none_iff (u : UserId) (plans : List PrepPlan) :
    findOne u plans = none ↔ ∀ p ∈ plans, p.user ≠ u := by
  simp [findOne, List.find?_eq_none]

theorem findOne_cons (u : UserId) (p : PrepPlan) (ps : List PrepPlan) :
    findOne u (p :: ps) = if p.user = u then some p else findOne u ps := by
  by_cases h : p.user = u <;> simp [findOne, List.find?_cons, h]

theorem filter_user_eq_nil (u : UserId) (ps : List PrepPlan)
    (h : u ∉ ps.map (fun p => p.user)) : ps.filter (fun p => p.user == u) = [] := by
  rw [List.filter_eq_nil_iff]
  intro p hp hpu
  exact h (List.mem_map.2 ⟨p, hp, by simpa using hpu⟩)

theorem saveExisting_map_user (u : UserId) (doc : PrepPlan) (hdoc : doc.user = u)
    (plans : List PrepPlan) :
    (saveExisting u doc plans).map (fun p => p.user) = plans.map (fun p => p.user) := by
  induction plans with
  | nil => rfl
  | cons p ps ih =>
    by_cases h : p.user = u
    · simp [saveExisting, h, hdoc]
    · simp [saveExisting, h, ih]

theorem findOne_saveExisting (u : UserId) (doc p : PrepPlan) (hdoc : doc.user = u)
    (plans : List PrepPlan) (h : findOne u plans = some p) :
    findOne u (saveExisting u doc plans) = some doc := by
  induction plans with
  | nil => simp [findOne] at h
  | cons q qs ih =>
    rw [findOne_cons] at h
    by_cases hq : q.user = u
    · simp [saveExisting, hq, findOne_cons, hdoc]
    · rw [if_neg hq] at h
      simp [saveExisting, hq, findOne_cons, ih h]

theorem filter_saveExisting_other (u u1 : UserId) (doc : PrepPlan) (hdoc : doc.user = u)
    (hne : u1 ≠ u) (plans : List PrepPlan) :
    (saveExisting u doc plans).filter (fun p => p.user == u1) =
      plans.filter (fun p => p.user == u1) := by
  induction plans with
  | nil => rfl
  | cons q qs ih =>
    by_cases hq : q.user = u
    · have h1 : ¬ doc.user = u1 := by rw [hdoc]; exact fun h => hne h.symm
      have h3 : ¬ u = u1 := fun h => hne h.symm
      simp [saveExisting, hq, List.filter_cons, h1, h3]
    · simp [saveExisting, hq, List.filter_cons, ih]

/-- Under the one-plan-per-user invariant the latest plan of a user is the plan that
`findOne` returns. -/
theorem findLatest_eq_findOne (u : UserId) (plans : List PrepPlan) (h : UniquePlans plans) :
    findLatest u plans = findOne u plans := by
  induction plans with
  | nil => rfl
  | cons p ps ih =>
    have hnd : u ∈ (p :: ps).map (fun p => p.user) → True := fun _ => trivial
    unfold UniquePlans at h
    rw [List.map_cons, List.nodup_cons] at h
    rw [findOne_cons]
    by_cases hp : p.user = u
    · rw [if_pos hp]
      have hnil := filter_user_eq_nil u ps (by rw [← hp]; exact h.1)
      simp [findLatest, List.filter_cons, hp, hnil, latest]
    · rw [if_neg hp, ← ih h.2]
      simp [findLatest, List.filter_cons, hp]

theorem upsertPlan_cons (u : UserId) (body : UserInput) (qs : List StoredQuestion) (now : Nat)
    (p : PrepPlan) (ps : List PrepPlan) :
    upsertPlan u body qs now (p :: ps) =
      if p.user = u then planOf u body qs now :: ps
      else p :: upsertPlan u body qs now ps := by
  unfold upsertPlan
  rw [findOne_cons]
  by_cases hp : p.user = u
  · simp [hp, saveExisting, planOf]
  · rw [if_neg hp, if_neg hp]
    cases findOne u ps with
    | none => simp
    | some q => simp [saveExisting, hp]

theorem upsertPlan_map_user (u : UserId) (body : UserInput) (qs : List StoredQuestion)
    (now : Nat) (plans : List PrepPlan) :
    (upsertPlan u body qs now plans).map (fun p => p.user) =
      if u ∈ plans.map (fun p => p.user) then plans.map (fun p => p.user)
      else plans.map (fun p => p.user) ++ [u] := by
  induction plans with
  | nil => simp [upsertPlan, findOne, planOf]
  | cons p ps ih =>
    rw [upsertPlan_cons]
    by_cases hp : p.user = u
    · simp [hp, planOf]
    · have hp2 : ¬ u = p.user := fun h => hp h.symm
      rw [if_neg hp, List.map_cons, ih]
      by_cases hu : u ∈ ps.map (fun p => p.user)
      · simp only [hu, if_true, List.map_cons, List.mem_cons, or_true]
      · simp only [hu, if_false, List.map_cons, List.mem_cons, hp2, or_self, List.cons_append]

/-- The upsert keeps the one-plan-per-user invariant. -/
theorem upsertPlan_unique (u : UserId) (body : UserInput) (qs : List StoredQuestion)
    (now : Nat) (plans : List PrepPlan) (h : UniquePlans plans) :
    UniquePlans (upsertPlan u body qs now plans) := by
  unfold UniquePlans at h ⊢
  rw [upsertPlan_map_user]
  by_cases hu : u ∈ plans.map (fun p => p.user)
  · rw [if_pos hu]
    exact h
  · rw [if_neg hu]
    exact List.Nodup.append h (List.nodup_singleton u) (by simpa using hu)

theorem upsertPlan_filter_self (u : UserId) (body : UserInput) (qs : List StoredQuestion)
    (now : Nat) (plans : List PrepPlan) (h : UniquePlans plans) :
    (upsertPlan u body qs now plans).filter (fun p => p.user == u) = [planOf u body qs now] := by
  induction plans with
  | nil => simp [upsertPlan, findOne, planOf]
  | cons p ps ih =>
    unfold UniquePlans at h
    rw [List.map_cons, List.nodup_cons] at h
    rw [upsertPlan_cons]
    by_cases hp : p.user = u
    · have hnil := filter_user_eq_nil u ps (by rw [← hp]; exact h.1)
      rw [if_pos hp, List.filter_cons]
      simp [planOf, hnil]
    · rw [if_neg hp, List.filter_cons]
      simp [hp, ih h.2]

theorem upsertPlan_filter_other (u u1 : UserId) (hne : u1 ≠ u) (body : UserInput)
    (qs : List StoredQuestion) (now : Nat) (plans : List PrepPlan) :
    (upsertPlan u body qs now plans).filter (fun p => p.user == u1) =
      plans.filter (fun p => p.user == u1) := by
  have hne2 : ¬ u = u1 := fun h => hne h.symm
  induction plans with
  | nil => simp [upsertPlan, findOne, planOf, hne2]
  | cons p ps ih =>
    rw [upsertPlan_cons]
    by_cases hp : p.user = u
    · have h2 : ¬ p.user = u1 := by rw [hp]; exact hne2
      simp [hp, List.filter_cons, planOf, hne2]
    · rw [if_neg hp, List.filter_cons, List.filter_cons, ih]

theorem upsertPlan_findOne (u : UserId) (body : UserInput) (qs : List StoredQuestion)
    (now : Nat) (plans : List PrepPlan) :
    findOne u (upsertPlan u body qs now plans) = some (planOf u body qs now) := by
  induction plans with
  | nil => simp [upsertPlan, findOne, planOf]
  | cons p ps ih =>
    rw [upsertPlan_cons]
    by_cases hp : p.user = u
    · rw [if_pos hp, findOne_cons]
      simp [planOf]
    · rw [if_neg hp, findOne_cons, if_neg hp, ih]

theorem assignIds_toQuestion (n : Nat) (qs : List Question) :
    (assignIds n qs).map (fun q => q.toQuestion) = qs := by
  induction qs generalizing n with
  | nil => rfl
  | cons q qs ih => simp [assignIds, ih]

/-- What a success result of the generate-plan operation tells. -/
theorem controller_created (model : Model) (pers : Persistence) (now : Nat) (userId : UserId)
    (body : UserInput) (st st1 : ServerState) (qs : List Question) (md : Metadata) (ai : Text)
    (h : Controller.generateSQLPrepPlan model pers now userId body st =
      some (.created qs md ai, st1)) :
    ∃ last, md = metadataOf body now ∧ ai = aiResponseOf last ∧
      st1 = stateAfterGenerate userId body qs now last st := by
  by_cases hvalid : body.valid = true
  · rcases generator_returns model body st.lastGeneratedResponse with
      ⟨prompt, -, -, hgen⟩ | ⟨gqs, last, hgen, hne, -, -⟩
    · rw [controller_rejected model pers now userId body st hvalid _ _ hgen] at h
      simp at h
    · have hctl := controller_valid model pers now userId body st hvalid gqs last hgen hne
      rw [hctl] at h
      cases pers with
      | ok =>
        simp only [Option.some.injEq, Prod.mk.injEq, GenResponse.created.injEq] at h
        obtain ⟨⟨h1, h2, h3⟩, h4⟩ := h
        exact ⟨last, h2.symm, h3.symm, by rw [← h4, h1]⟩
      | findFails => simp at h
      | saveFails => simp at h
      | userSaveFails => simp at h
  · rw [controller_invalid model pers now userId body st (by simpa using hvalid)] at h
    simp at h

/-! ## Regeneration -/

/-- C7: from a store with at most one plan per user, after two successful generate-plan
calls for the same user the store holds exactly one plan of that user; its four
questionnaire fields and its questions are those of the second call; the plans of every
other user are what they were. -/
theorem generate_twice_one_plan (model1 model2 : Model) (pers1 pers2 : Persistence)
    (now1 now2 : Nat) (userId : UserId) (body1 body2 : UserInput) (st0 st1 st2 : ServerState)
    (qs1 qs2 : List Question) (md1 md2 : Metadata) (ai1 ai2 : Text)
    (hinv : UniquePlans st0.store.plans)
    (h1 : Controller.generateSQLPrepPlan model1 pers1 now1 userId body1 st0 =
      some (.created qs1 md1 ai1, st1))
    (h2 : Controller.generateSQLPrepPlan model2 pers2 now2 userId body2 st1 =
      some (.created qs2 md2 ai2, st2)) :
    (∃ p, st2.store.plans.filter (fun p => p.user == userId) = [p] ∧
      p.user = userId ∧
      p.yearsOfExperience = body2.yearsOfExperience ∧ p.currentCTC = body2.currentCTC ∧
      p.targetCompanies = body2.targetCompanies ∧ p.timeCommitment = body2.timeCommitment ∧
      p.questions.map (fun q => q.toQuestion) = qs2 ∧ p.generatedAt = now2) ∧
    ∀ u, u ≠ userId →
      st2.store.plans.filter (fun p => p.user == u) =
        st0.store.plans.filter (fun p => p.user == u) := by
  obtain ⟨last1, -, -, rfl⟩ := controller_created _ _ _ _ _ _ _ _ _ _ h1
  obtain ⟨last2, -, -, rfl⟩ := controller_created _ _ _ _ _ _ _ _ _ _ h2
  have hinv1 := upsertPlan_unique userId body1 (assignIds st0.store.nextId qs1) now1
    st0.store.plans hinv
  constructor
  · refine ⟨planOf userId body2
      (assignIds (st0.store.nextId + qs1.length) qs2) now2, ?_, rfl, rfl, rfl, rfl, rfl, ?_, rfl⟩
    · exact upsertPlan_filter_self userId body2 _ now2 _ hinv1
    · exact assignIds_toQuestion _ _
  · intro u hu
    simp only [stateAfterGenerate]
    rw [upsertPlan_filter_other userId u hu, upsertPlan_filter_other userId u hu]

/-- Witness of C7: on the empty store, a call whose model throws and then a call whose
model answers with one block. -/
theorem generate_twice_one_plan_witness :
    UniquePlans emptyState.store.plans ∧
    Controller.generateSQLPrepPlan (fun _ => .throws) .ok 1700 7 sampleInput emptyState =
      some (.created getDefaultQuestions (metadataOf sampleInput 1700)
        "No AI response available".toList, sampleState) ∧
    ((∃ p, (stateAfterGenerate 7 sampleInput
          [{ emptyTitleQuestion with title := "Untitled Question".toList }] 1800
          (some emptyTitleText) sampleState).store.plans.filter (fun p => p.user == 7) = [p] ∧
      p.user = 7 ∧
      p.yearsOfExperience = sampleInput.yearsOfExperience ∧
      p.currentCTC = sampleInput.currentCTC ∧
      p.targetCompanies = sampleInput.targetCompanies ∧
      p.timeCommitment = sampleInput.timeCommitment ∧
      p.questions.map (fun q => q.toQuestion) =
        [{ emptyTitleQuestion with title := "Untitled Question".toList }] ∧
      p.generatedAt = 1800) ∧
    ∀ u, u ≠ 7 →
      (stateAfterGenerate 7 sampleInput
          [{ emptyTitleQuestion with title := "Untitled Question".toList }] 1800
          (some emptyTitleText) sampleState).store.plans.filter (fun p => p.user == u) =
        emptyState.store.plans.filter (fun p => p.user == u)) :=
  ⟨by decide, by decide!,
    generate_twice_one_plan (fun _ => .throws) (fun _ => .text emptyTitleText) .ok .ok 1700 1800 7
      sampleInput sampleInput emptyState sampleState _ getDefaultQuestions
      [{ emptyTitleQuestion with title := "Untitled Question".toList }]
      (metadataOf sampleInput 1700) (metadataOf sampleInput 1800)
      "No AI response available".toList emptyTitleText (by decide) (by decide!) (by decide!)⟩

/-! ## Progress updates -/

theorem findIndex_of_get (n : Nat) (qs : List StoredQuestion) (i : Nat) (hi : i < qs.length)
    (hid : (qs.get ⟨i, hi⟩).id = n) (hnodup : (qs.map (fun q => q.id)).Nodup) :
    findIndex (.id n) qs = some i := by
  induction qs generalizing i with
  | nil => exact absurd hi (Nat.not_lt_zero _)
  | cons q qs ih =>
    rw [List.map_cons, List.nodup_cons] at hnodup
    cases i with
    | zero =>
      simp only [List.get] at hid
      simp [findIndex, hid]
    | succ j =>
      simp only [List.get] at hid
      have hj : j < qs.length := Nat.lt_of_succ_lt_succ hi
      have hne : ¬ n = q.id := by
        intro h
        apply hnodup.1
        rw [← h, ← hid]
        exact List.mem_map.2 ⟨_, List.get_mem qs j hj, rfl⟩
      simp [findIndex, hne, ih j hj hid hnodup.2]

theorem findIndex_none (arg : QuestionIdArg) (qs : List StoredQuestion)
    (h : ∀ q ∈ qs, arg ≠ .id q.id) : findIndex arg qs = none := by
  induction qs with
  | nil => rfl
  | cons q qs ih =>
    have h1 := h q (List.mem_cons_self _ _)
    have h2 := ih (fun q1 hq1 => h q1 (List.mem_cons_of_mem _ hq1))
    simp [findIndex, h1, h2]

theorem setCompleted_eq_set (c : Bool) (qs : List StoredQuestion) (i : Nat)
    (hi : i < qs.length) :
    setCompleted i c qs = qs.set i { qs.get ⟨i, hi⟩ with completed := c } := by
  induction qs generalizing i with
  | nil => exact absurd hi (Nat.not_lt_zero _)
  | cons q qs ih =>
    cases i with
    | zero => rfl
    | succ j =>
      simp only [setCompleted, List.set_cons_succ, List.get]
      rw [ih j (Nat.lt_of_succ_lt_succ hi)]

/-- C8: when `questionId` identifies question `i` of the stored plan of the user,
`updateQuestionProgress` answers with the plan in which that question has `completed`
set to the supplied value; every other field of that question, every other question,
their order and number, and the plan's user, four questionnaire fields and generation
time are unchanged; the answered plan is the plan now stored for the user. -/
theorem update_known_question (userId : UserId) (st : ServerState) (plan : PrepPlan)
    (i n : Nat) (c : Bool) (hplan : findOne userId st.store.plans = some plan)
    (hi : i < plan.questions.length) (hid : (plan.questions.get ⟨i, hi⟩).id = n)
    (hnodup : (plan.questions.map (fun q => q.id)).Nodup) :
    ∃ updated st1,
      updateQuestionProgress .ok userId { questionId := .id n, completed := c } st =
        (.plan updated, st1) ∧
      findOne userId st1.store.plans = some updated ∧
      updated.questions =
        plan.questions.set i { plan.questions.get ⟨i, hi⟩ with completed := c } ∧
      updated.user = plan.user ∧
      updated.yearsOfExperience = plan.yearsOfExperience ∧
      updated.currentCTC = plan.currentCTC ∧
      updated.targetCompanies = plan.targetCompanies ∧
      updated.timeCommitment = plan.timeCommitment ∧
      updated.generatedAt = plan.generatedAt := by
  have hidx := findIndex_of_get n plan.questions i hi hid hnodup
  have hrun : ∃ st1,
      updateQuestionProgress .ok userId { questionId := .id n, completed := c } st =
        (.plan { plan with questions := setCompleted i c plan.questions }, st1) ∧
      st1.store.plans = saveExisting userId
        { plan with questions := setCompleted i c plan.questions } st.store.plans := by
    simp [updateQuestionProgress, hplan, hidx]
  obtain ⟨st1, hrun1, hplans⟩ := hrun
  refine ⟨_, st1, hrun1, ?_, ?_, rfl, rfl, rfl, rfl, rfl, rfl⟩
  · rw [hplans]
    have huser : plan.user = userId := findOne_user userId st.store.plans plan hplan
    exact findOne_saveExisting userId { plan with questions := setCompleted i c plan.questions }
      plan huser _ hplan
  · exact setCompleted_eq_set c plan.questions i hi

/-- Witness of C8: the second question of the stored sample plan is marked complete. -/
theorem update_known_question_witness :
    findOne 7 sampleState.store.plans = some samplePlan ∧
    ∃ updated st1,
      updateQuestionProgress .ok 7 { questionId := .id 1, completed := true } sampleState =
        (.plan updated, st1) ∧
      findOne 7 st1.store.plans = some updated ∧
      updated.questions =
        samplePlan.questions.set 1
          { samplePlan.questions.get ⟨1, by decide⟩ with completed := true } ∧
      updated.user = samplePlan.user ∧
      updated.yearsOfExperience = samplePlan.yearsOfExperience ∧
      updated.currentCTC = samplePlan.currentCTC ∧
      updated.targetCompanies = samplePlan.targetCompanies ∧
      updated.timeCommitment = samplePlan.timeCommitment ∧
      updated.generatedAt = samplePlan.generatedAt :=
  ⟨by decide, update_known_question 7 sampleState samplePlan 1 1 true (by decide) (by decide)
    (by decide) (by decide)⟩

/-- C9: `updateQuestionProgress` answers 400 when `questionId` is missing; otherwise,
the lookup working, 404 when the user has no plan, and 404 when no question of the
user's plan has the identifier; and whenever the answer is not a plan the state is
left as it was. -/
theorem update_errors (pers : Persistence) (userId : UserId) (body : UpdateBody)
    (st : ServerState) :
    (body.questionId = .missing →
      updateQuestionProgress pers userId body st =
        (.failure 400 "Question ID is required", st)) ∧
    (body.questionId ≠ .missing → pers ≠ .findFails →
      (∀ p ∈ st.store.plans, p.user ≠ userId) →
      updateQuestionProgress pers userId body st =
        (.failure 404 "No SQL prep plan found", st)) ∧
    (body.questionId ≠ .missing → pers ≠ .findFails →
      ∀ plan, findOne userId st.store.plans = some plan →
      (∀ q ∈ plan.questions, body.questionId ≠ .id q.id) →
      updateQuestionProgress pers userId body st =
        (.failure 404 "Question not found", st)) ∧
    ((∀ p, (updateQuestionProgress pers userId body st).1 ≠ .plan p) →
      (updateQuestionProgress pers userId body st).2 = st) := by
  refine ⟨?_, ?_, ?_, ?_⟩
  · intro h
    simp [updateQuestionProgress, h]
  · intro h hp hnone
    simp [updateQuestionProgress, h, hp, (findOne_none_iff _ _).2 hnone]
  · intro h hp plan hplan hq
    simp [updateQuestionProgress, h, hp, hplan, findIndex_none _ _ hq]
  · intro h
    unfold updateQuestionProgress at h ⊢
    by_cases h1 : body.questionId = .missing
    · simp [h1]
    · by_cases h2 : pers = .findFails
      · simp [h1, h2]
      · cases hplan : findOne userId st.store.plans with
        | none => simp [h1, h2]
        | some plan =>
          cases hidx : findIndex body.questionId plan.questions with
          | none => simp [h1, h2, hidx]
          | some idx =>
            by_cases h3 : pers = .saveFails
            · simp [h1, h2, hidx, h3]
            · simp [h1, h2, hplan, hidx, h3] at h

/-- Witness of C9: a missing identifier, a user without a plan, and an identifier that
no question of the plan has. -/
theorem update_errors_witness :
    updateQuestionProgress .ok 7 { questionId := .missing, completed := true } sampleState =
      (.failure 400 "Question ID is required", sampleState) ∧
    updateQuestionProgress .ok 8 { questionId := .id 1, completed := true } sampleState =
      (.failure 404 "No SQL prep plan found", sampleState) ∧
    updateQuestionProgress .ok 7 { questionId := .id 5, completed := true } sampleState =
      (.failure 404 "Question not found", sampleState) :=
  ⟨(update_errors .ok 7 { questionId := .missing, completed := true } sampleState).1 rfl,
   (update_errors .ok 8 { questionId := .id 1, completed := true } sampleState).2.1
      (by decide) (by decide) (by decide),
   (update_errors .ok 7 { questionId := .id 5, completed := true } sampleState).2.2.1
      (by decide) (by decide) samplePlan (by decide) (by decide)⟩

/-! ## Reading the saved plan -/

theorem getSaved_of_findOne (u : UserId) (st : ServerState) (p : PrepPlan)
    (hinv : UniquePlans st.store.plans) (h : findOne u st.store.plans = some p) :
    getSavedSQLPrepPlan .ok u st = (.plan p, st) := by
  have hl := findLatest_eq_findOne u st.store.plans hinv
  rw [h] at hl
  simp [getSavedSQLPrepPlan, hl]

/-- What an answer with a plan tells about an update-progress request. -/
theorem update_plan_inv (pers : Persistence) (u : UserId) (body : UpdateBody)
    (st st1 : ServerState) (p : PrepPlan)
    (h : updateQuestionProgress pers u body st = (.plan p, st1)) :
    ∃ plan, findOne u st.store.plans = some plan ∧ p.user = plan.user ∧
      st1.store.plans = saveExisting u p st.store.plans := by
  unfold updateQuestionProgress at h
  by_cases h1 : body.questionId = .missing
  · simp [h1] at h
  · by_cases h2 : pers = .findFails
    · simp [h1, h2] at h
    · cases hplan : findOne u st.store.plans with
      | none => simp [h1, h2, hplan] at h
      | some plan =>
        cases hidx : findIndex body.questionId plan.questions with
        | none => simp [h1, h2, hplan, hidx] at h
        | some idx =>
          by_cases h3 : pers = .saveFails
          · simp [h1, h2, hplan, hidx, h3] at h
          · simp only [h1, h2, hplan, hidx, h3, if_false, Prod.mk.injEq,
              PlanResponse.plan.injEq] at h
            obtain ⟨hp, hst⟩ := h
            refine ⟨plan, rfl, ?_, ?_⟩
            · rw [← hp]
            · rw [← hst, ← hp]

/-- C10: over a store with at most one plan per user, `getSavedSQLPrepPlan` answers 404
for a user with no plan; after a successful generate-plan call of the user it answers
with a plan whose questions are, in number, order and field values, the questions that
call returned and wrote; after an update-progress call of the user that answered with a
plan it answers with that plan; and it never changes the state. -/
theorem saved_plan_roundtrip (userId : UserId) (st : ServerState)
    (hinv : UniquePlans st.store.plans) :
    ((∀ p ∈ st.store.plans, p.user ≠ userId) →
      getSavedSQLPrepPlan .ok userId st = (.failure 404 "No SQL prep plan found", st)) ∧
    (∀ (model : Model) (pers : Persistence) (now : Nat) (body : UserInput)
        (qs : List Question) (md : Metadata) (ai : Text) (st1 : ServerState),
      Controller.generateSQLPrepPlan model pers now userId body st =
        some (.created qs md ai, st1) →
      ∃ p, getSavedSQLPrepPlan .ok userId st1 = (.plan p, st1) ∧
        p.questions.length = qs.length ∧
        p.questions.map (fun q => q.toQuestion) = qs) ∧
    (∀ (pers : Persistence) (body : UpdateBody) (p : PrepPlan) (st1 : ServerState),
      updateQuestionProgress pers userId body st = (.plan p, st1) →
      getSavedSQLPrepPlan .ok userId st1 = (.plan p, st1)) ∧
    (∀ pers : Persistence, (getSavedSQLPrepPlan pers userId st).2 = st) := by
  refine ⟨?_, ?_, ?_, ?_⟩
  · intro h
    have hnil : st.store.plans.filter (fun p => p.user == userId) = [] := by
      rw [List.filter_eq_nil_iff]
      intro p hp hpu
      exact h p hp (by simpa using hpu)
    simp [getSavedSQLPrepPlan, findLatest, hnil, latest]
  · intro model pers now body qs md ai st1 h
    obtain ⟨last, -, -, rfl⟩ := controller_created _ _ _ _ _ _ _ _ _ _ h
    refine ⟨planOf userId body (assignIds st.store.nextId qs) now, ?_, ?_, ?_⟩
    · apply getSaved_of_findOne
      · exact upsertPlan_unique userId body _ now _ hinv
      · exact upsertPlan_findOne userId body _ now _
    · have := congrArg List.length (assignIds_toQuestion st.store.nextId qs)
      simpa [planOf] using this
    · exact assignIds_toQuestion _ _
  · intro pers body p st1 h
    obtain ⟨plan, hplan, hpu, hst⟩ := update_plan_inv pers userId body st st1 p h
    have huser : p.user = userId := by rw [hpu]; exact findOne_user _ _ _ hplan
    apply getSaved_of_findOne
    · unfold UniquePlans
      rw [hst, saveExisting_map_user userId p huser]
      exact hinv
    · rw [hst]
      exact findOne_saveExisting userId p plan huser _ hplan
  · intro pers
    unfold getSavedSQLPrepPlan
    by_cases h : pers = .findFails
    · simp [h]
    · cases findLatest userId st.store.plans <;> simp [h]

/-- Witness of C10: an empty store, then the plan written by a generate-plan call, then
the plan written by an update-progress call. -/
theorem saved_plan_roundtrip_witness :
    UniquePlans emptyState.store.plans ∧ UniquePlans sampleState.store.plans ∧
    getSavedSQLPrepPlan .ok 7 emptyState = (.failure 404 "No SQL prep plan found", emptyState) ∧
    (∃ p, getSavedSQLPrepPlan .ok 7 sampleState = (.plan p, sampleState) ∧
      p.questions.length = getDefaultQuestions.length ∧
      p.questions.map (fun q => q.toQuestion) = getDefaultQuestions) ∧
    getSavedSQLPrepPlan .ok 7
        (updateQuestionProgress .ok 7 { questionId := .id 1, completed := true } sampleState).2 =
      (.plan { samplePlan with questions := setCompleted 1 true samplePlan.questions },
        (updateQuestionProgress .ok 7 { questionId := .id 1, completed := true } sampleState).2) :=
  ⟨by decide, by decide,
    (saved_plan_roundtrip 7 emptyState (by decide)).1 (by decide),
    (saved_plan_roundtrip 7 emptyState (by decide)).2.1 (fun _ => .throws) .ok 1700 sampleInput
      getDefaultQuestions (metadataOf sampleInput 1700) "No AI response available".toList
      sampleState (by decide!),
    (saved_plan_roundtrip 7 sampleState (by decide)).2.2.1 .ok
      { questionId := .id 1, completed := true } _ _ (by decide!)⟩

/-! ## The raw response text of a call -/

/-- C11, on the code: a generate-plan call of user 7 whose model returns a text is
followed by a call of user 8 whose model call throws; the second call obtained no
response text, and its `aiResponse` is the text of the first call, not the placeholder. -/
theorem stale_aiResponse_after_failed_call :
    Controller.generateSQLPrepPlan (fun _ => .text emptyTitleText) .ok 1700 7 sampleInput
        emptyState =
      some (.created [{ emptyTitleQuestion with title := "Untitled Question".toList }]
        (metadataOf sampleInput 1700) emptyTitleText, stateAfterText) ∧
    Controller.generateSQLPrepPlan (fun _ => .throws) .ok 1800 8 sampleInput stateAfterText =
      some (.created getDefaultQuestions (metadataOf sampleInput 1800) emptyTitleText,
        stateAfterGenerate 8 sampleInput getDefaultQuestions 1800 (some emptyTitleText)
          stateAfterText) ∧
    emptyTitleText ≠ "No AI response available".toList := by
  decide!

/-! ## The failure branch for an empty question list -/

/-- C14 does not hold of the code as stated: the generator does not return a list for
every model outcome. When the model call throws `undefined` or `null` the handler of the
generator throws in turn, and the generator rejects (so it does for the input of the
end-to-end example). In every other case it returns a non-empty list, the default list
or a parsed list, and for every request body, model and persistence outcome the
generate-plan operation never answers with the 500 result "Failed to generate SQL prep
questions". -/
theorem failure_branch_generator_rejects (model : Model) (pers : Persistence) (now : Nat)
    (userId : UserId) (body : UserInput) (st : ServerState) :
    (AIGenerator.generateSQLPrepPlan (fun _ => .throwsNullish) sampleInput none).1 =
      some (.rejected .typeError) ∧
    ((∃ prompt, constructPrompt body = .ok prompt ∧ model prompt = .throwsNullish ∧
        AIGenerator.generateSQLPrepPlan model body st.lastGeneratedResponse =
          (some (.rejected .typeError), st.lastGeneratedResponse)) ∨
      ∃ qs last,
        AIGenerator.generateSQLPrepPlan model body st.lastGeneratedResponse =
          (some (.returned qs), last) ∧
        qs ≠ [] ∧ (qs = getDefaultQuestions ∨ ∃ t, parseAIPlan t = some qs)) ∧
    ∀ st1, Controller.generateSQLPrepPlan model pers now userId body st ≠
      some (.failure 500 "Failed to generate SQL prep questions", st1) := by
  refine ⟨by decide, ?_, ?_⟩
  · rcases generator_returns model body st.lastGeneratedResponse with
      h | ⟨gqs, last, hgen, hne, hsrc, -⟩
    · exact Or.inl h
    · exact Or.inr ⟨gqs, last, hgen, hne, hsrc⟩
  · intro st1 hfail
    by_cases hvalid : body.valid = true
    · rcases generator_returns model body st.lastGeneratedResponse with
        ⟨prompt, -, -, hgen⟩ | ⟨gqs, last, hgen, hne, -, -⟩
      · rw [controller_rejected model pers now userId body st hvalid _ _ hgen] at hfail
        simp at hfail
      · rw [controller_valid model pers now userId body st hvalid gqs last hgen hne] at hfail
        cases pers <;> simp at hfail
    · rw [controller_invalid model pers now userId body st (by simpa using hvalid)] at hfail
      simp at hfail

/-! ## Responses outside the markdown template -/

theorem markdownRegex_run_prefix (s : Text) (caps : Caps) (k : Cont)
    (h : "**".toList.isPrefixOf s = false) : markdownRegex.run s caps k = none := by
  have hshape : ∃ B, markdownRegex = .seq (Regex.str "**".toList) B := ⟨_, rfl⟩
  obtain ⟨B, hB⟩ := hshape
  rw [hB, run_seq]
  exact run_str_none _ _ _ _ h

theorem exec_none_of_no_stars (s : Text) (h : ¬ "**".toList <:+: s) :
    exec markdownRegex s = none := by
  induction s with
  | nil => exact exec_nil
  | cons c cs ih =>
    have h1 : "**".toList.isPrefixOf (c :: cs) = false := by
      rw [Bool.eq_false_iff]
      intro hp
      exact h (List.IsPrefix.isInfix (List.isPrefixOf_iff_prefix.1 hp))
    have h2 : ¬ "**".toList <:+: cs := fun hi => h (List.IsInfix.trans hi
      (List.IsSuffix.isInfix (List.suffix_cons c cs)))
    simp only [exec, markdownRegex_run_prefix _ _ _ h1, ih h2]

/-- C15: on a response text that contains no `**` emphasis marker, such as a response in
the plain "Title: / Difficulty: / Concepts: / Description:" format or free prose, the
template matches nowhere and `parseAIPlan` returns the empty list. -/
theorem parseAIPlan_without_emphasis (t : Text) (h : ¬ "**".toList <:+: t) :
    exec markdownRegex t = none ∧ parseAIPlan t = some [] :=
  ⟨exec_none_of_no_stars t h, parseAIPlan_of_exec_none t (exec_none_of_no_stars t h)⟩

/-- Witness of C15: a response in the plain format that the prompt asks for. -/
theorem parseAIPlan_without_emphasis_witness :
    (¬ "**".toList <:+: plainFormatText) ∧ parseAIPlan plainFormatText = some [] :=
  ⟨by decide!, (parseAIPlan_without_emphasis plainFormatText (by decide!)).2⟩

/-! ## The prompt -/

/-- Where the pieces of a text assembled like the prompt are found in it. -/
theorem prompt_pieces (A y B c C j D t E x0 req x1 e0 l1 e1 l2 e2 l3 e3 l4 e4 : Text)
    (hreq : E = x0 ++ req ++ x1)
    (hlab : E = e0 ++ l1 ++ e1 ++ l2 ++ e2 ++ l3 ++ e3 ++ l4 ++ e4) :
    req <:+: A ++ y ++ B ++ c ++ C ++ j ++ D ++ t ++ E ∧
    (∃ p0 p1 p2 p3 p4, A ++ y ++ B ++ c ++ C ++ j ++ D ++ t ++ E =
      p0 ++ l1 ++ p1 ++ l2 ++ p2 ++ l3 ++ p3 ++ l4 ++ p4) ∧
    y <:+: A ++ y ++ B ++ c ++ C ++ j ++ D ++ t ++ E ∧
    c <:+: A ++ y ++ B ++ c ++ C ++ j ++ D ++ t ++ E ∧
    t <:+: A ++ y ++ B ++ c ++ C ++ j ++ D ++ t ++ E ∧
    j <:+: A ++ y ++ B ++ c ++ C ++ j ++ D ++ t ++ E := by
  refine ⟨?_, ?_, ?_, ?_, ?_, ?_⟩
  · exact ⟨A ++ y ++ B ++ c ++ C ++ j ++ D ++ t ++ x0, x1, by
      rw [hreq]; simp only [List.append_assoc]⟩
  · exact ⟨A ++ y ++ B ++ c ++ C ++ j ++ D ++ t ++ e0, e1, e2, e3, e4, by
      rw [hlab]; simp only [List.append_assoc]⟩
  · exact ⟨A, B ++ c ++ C ++ j ++ D ++ t ++ E, by simp only [List.append_assoc]⟩
  · exact ⟨A ++ y ++ B, C ++ j ++ D ++ t ++ E, by simp only [List.append_assoc]⟩
  · exact ⟨A ++ y ++ B ++ c ++ C ++ j ++ D, E, by simp only [List.append_assoc]⟩
  · exact ⟨A ++ y ++ B ++ c ++ C, D ++ t ++ E, by simp only [List.append_assoc]⟩

/-- C12: `constructPrompt` is a function of the four questionnaire fields alone (equal
inputs give equal prompts), and for every input whose target companies are a list the
prompt contains the request for exactly 25 SQL interview questions, the labels "Title:",
"Difficulty:", "Concepts:", "Description:" in that order, the text of the
yearsOfExperience, currentCTC and timeCommitment values, and the companies joined by
", " in their order. -/
theorem constructPrompt_contents (y c t : JsVal) (companies : List Text) :
    (∀ u1 u2 : UserInput, u1 = u2 → constructPrompt u1 = constructPrompt u2) ∧
    ∃ prompt,
      constructPrompt { yearsOfExperience := y, currentCTC := c,
                        targetCompanies := .arr companies, timeCommitment := t } = .ok prompt ∧
      "exactly 25 SQL interview questions".toList <:+: prompt ∧
      (∃ p0 p1 p2 p3 p4, prompt = p0 ++ "Title:".toList ++ p1 ++ "Difficulty:".toList ++ p2 ++
        "Concepts:".toList ++ p3 ++ "Description:".toList ++ p4) ∧
      y.toText <:+: prompt ∧ c.toText <:+: prompt ∧ t.toText <:+: prompt ∧
      joinWith ", ".toList companies <:+: prompt := by
  have h25 : "\n\n    Generate exactly 25 SQL interview questions with this STRICT format for EACH question:\n    Title: [Descriptive Title]\n    Difficulty: [Easy/Medium/Hard]\n    Concepts: [Comma-separated SQL concepts]\n    Description: [Detailed problem description with context]".toList =
      "\n\n    Generate ".toList ++ "exactly 25 SQL interview questions".toList ++
        " with this STRICT format for EACH question:\n    Title: [Descriptive Title]\n    Difficulty: [Easy/Medium/Hard]\n    Concepts: [Comma-separated SQL concepts]\n    Description: [Detailed problem description with context]".toList := by
    decide!
  have hlabels : "\n\n    Generate exactly 25 SQL interview questions with this STRICT format for EACH question:\n    Title: [Descriptive Title]\n    Difficulty: [Easy/Medium/Hard]\n    Concepts: [Comma-separated SQL concepts]\n    Description: [Detailed problem description with context]".toList =
      "\n\n    Generate exactly 25 SQL interview questions with this STRICT format for EACH question:\n    ".toList ++
        "Title:".toList ++ " [Descriptive Title]\n    ".toList ++
        "Difficulty:".toList ++ " [Easy/Medium/Hard]\n    ".toList ++
        "Concepts:".toList ++ " [Comma-separated SQL concepts]\n    ".toList ++
        "Description:".toList ++ " [Detailed problem description with context]".toList := by
    decide!
  exact ⟨fun u1 u2 h => by rw [h], _, rfl,
    prompt_pieces _ _ _ _ _ _ _ _ _ _ _ _ _ _ _ _ _ _ _ _ _ h25 hlabels⟩

/-- Witness of C12: the prompt of the end-to-end example. -/
theorem constructPrompt_contents_witness :
    ∃ prompt,
      constructPrompt { yearsOfExperience := .str "3".toList, currentCTC := .str "5-10L".toList,
                        targetCompanies := .arr ["Google".toList, "Amazon".toList],
                        timeCommitment := .str "5-10 hours".toList } = .ok prompt ∧
      "exactly 25 SQL interview questions".toList <:+: prompt ∧
      (∃ p0 p1 p2 p3 p4, prompt = p0 ++ "Title:".toList ++ p1 ++ "Difficulty:".toList ++ p2 ++
        "Concepts:".toList ++ p3 ++ "Description:".toList ++ p4) ∧
      (JsVal.str "3".toList).toText <:+: prompt ∧ (JsVal.str "5-10L".toList).toText <:+: prompt ∧
      (JsVal.str "5-10 hours".toList).toText <:+: prompt ∧
      joinWith ", ".toList ["Google".toList, "Amazon".toList] <:+: prompt :=
  (constructPrompt_contents (.str "3".toList) (.str "5-10L".toList) (.str "5-10 hours".toList)
    ["Google".toList, "Amazon".toList]).2

/-! ## Difficulty values -/

theorem validateInput_of_valid (u : UserInput) (h : u.valid = true) :
    validateInput u = .ok () := by
  unfold UserInput.valid at h
  simp only [Bool.and_eq_true] at h
  obtain ⟨⟨⟨h1, h2⟩, h3⟩, h4⟩ := h
  simp [validateInput, h1, h2, h3, h4]

theorem constructPrompt_arr (u : UserInput) (companies : List Text)
    (h : u.targetCompanies = .arr companies) : ∃ prompt, constructPrompt u = .ok prompt := by
  unfold constructPrompt
  rw [h]
  exact ⟨_, rfl⟩

theorem blocksText_not_blank (b : Block) (bs : List Block) :
    ((blocksText (b :: bs)).isEmpty || (trim (blocksText (b :: bs))).length == 0) = false := by
  have h2 : "**".toList = ['*', '*'] := rfl
  have hshape : ∃ rest, blocksText (b :: bs) = '*' :: rest := by
    simp only [blocksText, Block.text, h2, List.append_assoc, List.cons_append]
    exact ⟨_, rfl⟩
  obtain ⟨rest, hrest⟩ := hshape
  rw [hrest]
  have hne : trim ('*' :: rest) ≠ [] := by
    unfold trim
    rw [dropWhile_space_star]
    intro h
    rw [List.rdropWhile_eq_nil_iff] at h
    have := h '*' (List.mem_cons_self _ _)
    simp [star_not_space] at this
  cases htr : trim ('*' :: rest) with
  | nil => exact absurd htr hne
  | cons x xs => rfl

/-- The generator on a response made of well-formed blocks returns their entries. -/
theorem generator_blocks (model : Model) (body : UserInput) (last : Option Text)
    (companies : List Text) (bs : List Block) (hvalid : body.valid = true)
    (harr : body.targetCompanies = .arr companies) (hne : bs ≠ [])
    (hwf : ∀ b ∈ bs, b.WellFormed) (hmodel : ∀ prompt, model prompt = .text (blocksText bs)) :
    AIGenerator.generateSQLPrepPlan model body last =
      (some (.returned (bs.map Block.entry)), some (blocksText bs)) := by
  obtain ⟨prompt, hp⟩ := constructPrompt_arr body companies harr
  have hparse := parseLoop_blocks bs hwf _ (Nat.lt_succ_of_le (blocksText_length bs))
  cases bs with
  | nil => exact absurd rfl hne
  | cons b bs =>
    have hblank := blocksText_not_blank b bs
    simp only [AIGenerator.generateSQLPrepPlan, validateInput_of_valid body hvalid, hp,
      hmodel prompt, hblank, parseAIPlan, hparse]
    simp

/-- C16: on a response made of well-formed blocks the generate-plan operation returns,
for every block whose difficulty text trims to a non-empty `d`, a question of difficulty
exactly `d`, whatever `d` is; and for some response text a returned question has a
difficulty that is none of Easy, Medium and Hard. -/
theorem difficulty_unconstrained :
    (∀ (model : Model) (now : Nat) (userId : UserId) (body : UserInput) (st : ServerState)
        (companies : List Text) (bs : List Block),
      body.valid = true → body.targetCompanies = .arr companies → bs ≠ [] →
      (∀ b ∈ bs, b.WellFormed) → (∀ prompt, model prompt = .text (blocksText bs)) →
      ∃ md ai st1,
        Controller.generateSQLPrepPlan model .ok now userId body st =
          some (.created (bs.map (fun b => validateQuestion b.entry.toRaw)) md ai, st1) ∧
        ∀ b ∈ bs, trim b.difficulty ≠ [] →
          (validateQuestion b.entry.toRaw).difficulty = trim b.difficulty) ∧
    (∃ qs md ai st1,
      Controller.generateSQLPrepPlan (fun _ => .text emptyTitleText) .ok 1700 7 sampleInput
        emptyState = some (.created qs md ai, st1) ∧
      ∃ q ∈ qs, q.difficulty ≠ "Easy".toList ∧ q.difficulty ≠ "Medium".toList ∧
        q.difficulty ≠ "Hard".toList) := by
  constructor
  · intro model now userId body st companies bs hvalid harr hne hwf hmodel
    have hgen := generator_blocks model body st.lastGeneratedResponse companies bs hvalid harr
      hne hwf hmodel
    have hctl := controller_valid model .ok now userId body st hvalid _ _ hgen
      (by simpa using hne)
    refine ⟨_, _, _, by rw [hctl, List.map_map]; rfl, ?_⟩
    intro b _ hd
    simp only [validateQuestion, Question.toRaw, Block.entry, orElseText]
    cases htr : trim b.difficulty with
    | nil => exact absurd htr hd
    | cons x xs => rfl
  · refine ⟨[{ emptyTitleQuestion with title := "Untitled Question".toList }],
      metadataOf sampleInput 1700, emptyTitleText, stateAfterText, by decide!, ?_⟩
    exact ⟨_, List.mem_singleton.2 rfl, by decide, by decide, by decide⟩

/-- Witness of C16: the two sample blocks, of difficulties Hard and Easy. -/
theorem difficulty_unconstrained_witness :
    ∃ md ai st1,
      Controller.generateSQLPrepPlan (fun _ => .text (blocksText sampleBlocks)) .ok 1700 7
          sampleInput emptyState =
        some (.created (sampleBlocks.map (fun b => validateQuestion b.entry.toRaw)) md ai, st1) ∧
      ∀ b ∈ sampleBlocks, trim b.difficulty ≠ [] →
        (validateQuestion b.entry.toRaw).difficulty = trim b.difficulty :=
  difficulty_unconstrained.1 (fun _ => .text (blocksText sampleBlocks)) 1700 7 sampleInput
    emptyState ["Google".toList, "Amazon".toList] sampleBlocks (by decide) rfl (by decide)
    (by decide!) (fun _ => rfl)

/-! ## The optimistic update of the client -/

theorem client_map_no_match (n : Nat) (c : Bool) (qs : List StoredQuestion)
    (h : ∀ q ∈ qs, q.id ≠ n) :
    (qs.map ClientQuestion.ofStored).map
      (fun q => if idMatches q.id (.id n) then { q with completed := c } else q) =
      qs.map ClientQuestion.ofStored := by
  induction qs with
  | nil => rfl
  | cons q qs ih =>
    have h1 : q.id ≠ n := h q (List.mem_cons_self _ _)
    have h2 := ih (fun q1 hq1 => h q1 (List.mem_cons_of_mem _ hq1))
    simp only [List.map_cons, h2]
    simp [ClientQuestion.ofStored, idMatches, h1]

theorem client_map_setCompleted (n : Nat) (c : Bool) (qs : List StoredQuestion) (i : Nat)
    (hi : i < qs.length) (hid : (qs.get ⟨i, hi⟩).id = n)
    (hnodup : (qs.map (fun q => q.id)).Nodup) :
    (qs.map ClientQuestion.ofStored).map
      (fun q => if idMatches q.id (.id n) then { q with completed := c } else q) =
      (setCompleted i c qs).map ClientQuestion.ofStored := by
  induction qs generalizing i with
  | nil => exact absurd hi (Nat.not_lt_zero _)
  | cons q qs ih =>
    rw [List.map_cons, List.nodup_cons] at hnodup
    cases i with
    | zero =>
      simp only [List.get] at hid
      have hrest : ∀ q1 ∈ qs, q1.id ≠ n := by
        intro q1 hq1 h1
        apply hnodup.1
        rw [hid, ← h1]
        exact List.mem_map.2 ⟨q1, hq1, rfl⟩
      have htail := client_map_no_match n c qs hrest
      simp only [List.map_cons, setCompleted, htail]
      simp [ClientQuestion.ofStored, idMatches, hid]
    | succ j =>
      simp only [List.get] at hid
      have hj : j < qs.length := Nat.lt_of_succ_lt_succ hi
      have hne : q.id ≠ n := by
        intro h
        apply hnodup.1
        rw [h, ← hid]
        exact List.mem_map.2 ⟨_, List.get_mem qs j hj, rfl⟩
      have htail := ih j hj hid hnodup.2
      simp only [List.map_cons, setCompleted, htail]
      simp [ClientQuestion.ofStored, idMatches, hne]

/-- C13: when the client state holds the stored plan of the user and `questionId`
identifies question `i` of it, the optimistic update of the client gives the questions
list of the plan that the server's `updateQuestionProgress` answers for the same
arguments (same length and order, `completed` set on that question, the other questions
as they were) and leaves the other fields of the state as they are; a `null` state and a
state without a questions list are left unchanged. -/
theorem client_update_matches_server {α : Type} (other : α) (userId : UserId)
    (st : ServerState) (plan : PrepPlan) (i n : Nat) (c : Bool)
    (hplan : findOne userId st.store.plans = some plan)
    (hi : i < plan.questions.length) (hid : (plan.questions.get ⟨i, hi⟩).id = n)
    (hnodup : (plan.questions.map (fun q => q.id)).Nodup) :
    (∃ updated st1,
      updateQuestionProgress .ok userId
          { questionId := (ClientIdArg.id n).toRequest, completed := c } st =
        (.plan updated, st1) ∧
      updated.questions =
        plan.questions.set i { plan.questions.get ⟨i, hi⟩ with completed := c } ∧
      Client.updateQuestionProgress (.id n) c
          (some { questions := some (plan.questions.map ClientQuestion.ofStored),
                  other := other }) =
        some { questions := some (updated.questions.map ClientQuestion.ofStored),
               other := other }) ∧
    (∀ (questionId : ClientIdArg) (completed : Bool),
      Client.updateQuestionProgress questionId completed (none : Option (ClientPlan α)) = none) ∧
    (∀ (questionId : ClientIdArg) (completed : Bool) (o : α),
      Client.updateQuestionProgress questionId completed
          (some { questions := none, other := o }) =
        some { questions := none, other := o }) := by
  refine ⟨?_, fun _ _ => rfl, fun _ _ _ => rfl⟩
  have hidx := findIndex_of_get n plan.questions i hi hid hnodup
  have hrun : ∃ st1,
      updateQuestionProgress .ok userId
          { questionId := (ClientIdArg.id n).toRequest, completed := c } st =
        (.plan { plan with questions := setCompleted i c plan.questions }, st1) := by
    simp [updateQuestionProgress, ClientIdArg.toRequest, hplan, hidx]
  obtain ⟨st1, hrun1⟩ := hrun
  refine ⟨_, st1, hrun1, setCompleted_eq_set c plan.questions i hi, ?_⟩
  simp only [Client.updateQuestionProgress]
  rw [client_map_setCompleted n c plan.questions i hi hid hnodup]

/-- Witness of C13: the client holds the stored sample plan and marks its second
question complete. -/
theorem client_update_matches_server_witness :
    findOne 7 sampleState.store.plans = some samplePlan ∧
    ∃ updated st1,
      updateQuestionProgress .ok 7
          { questionId := (ClientIdArg.id 1).toRequest, completed := true } sampleState =
        (.plan updated, st1) ∧
      updated.questions =
        samplePlan.questions.set 1
          { samplePlan.questions.get ⟨1, by decide⟩ with completed := true } ∧
      Client.updateQuestionProgress (.id 1) true
          (some { questions := some (samplePlan.questions.map ClientQuestion.ofStored),
                  other := "fetched" }) =
        some { questions := some (updated.questions.map ClientQuestion.ofStored),
               other := "fetched" } :=
  ⟨by decide, (client_update_matches_server "fetched" 7 sampleState samplePlan 1 1 true
    (by decide) (by decide) (by decide) (by decide)).1⟩

/-! ## Where a match ends -/

theorem starGreedy_suffix (p : Char → Bool) (s : Text) (caps : Caps) (k : Cont)
    (res : MatchResult) (h : starGreedy p s caps k = some res) :
    ∃ s1, s1 <:+ s ∧ k s1 caps = some res := by
  induction s with
  | nil => exact ⟨[], List.suffix_refl _, by simpa [starGreedy] using h⟩
  | cons c cs ih =>
    rw [starGreedy_cons] at h
    by_cases hc : p c = true
    · rw [if_pos hc] at h
      cases hrec : starGreedy p cs caps k with
      | some r =>
        rw [hrec] at h
        simp only [Option.some.injEq] at h
        rw [h] at hrec
        obtain ⟨s1, hs1, hk⟩ := ih hrec
        exact ⟨s1, hs1.trans (List.suffix_cons c cs), hk⟩
      | none =>
        rw [hrec] at h
        exact ⟨c :: cs, List.suffix_refl _, h⟩
    · rw [if_neg hc] at h
      exact ⟨c :: cs, List.suffix_refl _, h⟩

theorem starLazy_suffix (p : Char → Bool) (s : Text) (caps : Caps) (k : Cont)
    (res : MatchResult) (h : starLazy p s caps k = some res) :
    ∃ s1, s1 <:+ s ∧ k s1 caps = some res := by
  induction s with
  | nil => exact ⟨[], List.suffix_refl _, by simpa [starLazy] using h⟩
  | cons c cs ih =>
    rw [starLazy_cons] at h
    cases hk : k (c :: cs) caps with
    | some r =>
      rw [hk] at h
      refine ⟨c :: cs, List.suffix_refl _, ?_⟩
      rw [hk]
      simpa using h
    | none =>
      rw [hk] at h
      by_cases hc : p c = true
      · simp only [hc, if_true] at h
        obtain ⟨s1, hs1, hk1⟩ := ih h
        exact ⟨s1, hs1.trans (List.suffix_cons c cs), hk1⟩
      · simp [hc] at h

/-- A successful run hands to its continuation a suffix of the input it started from,
and as many capture slots as it was given. -/
theorem run_suffix (r : Regex) : ∀ (s : Text) (caps : Caps) (k : Cont) (res : MatchResult),
    r.run s caps k = some res →
    ∃ s1 caps1, s1 <:+ s ∧ caps1.length = caps.length ∧ k s1 caps1 = some res := by
  induction r with
  | eps => exact fun s caps k res h => ⟨s, caps, List.suffix_refl _, rfl, h⟩
  | char c =>
    intro s caps k res h
    cases s with
    | nil => simp [Regex.run] at h
    | cons d ds =>
      by_cases hd : d = c
      · exact ⟨ds, caps, List.suffix_cons d ds, rfl, by simpa [Regex.run, hd] using h⟩
      · simp [Regex.run, hd] at h
  | cls cl =>
    intro s caps k res h
    cases s with
    | nil => simp [Regex.run] at h
    | cons d ds =>
      by_cases hd : cl.test d = true
      · exact ⟨ds, caps, List.suffix_cons d ds, rfl, by simpa [Regex.run, hd] using h⟩
      · simp [Regex.run, hd] at h
  | star cl =>
    intro s caps k res h
    obtain ⟨s1, hs1, hk⟩ := starGreedy_suffix _ s caps k res h
    exact ⟨s1, caps, hs1, rfl, hk⟩
  | lazyStar cl =>
    intro s caps k res h
    obtain ⟨s1, hs1, hk⟩ := starLazy_suffix _ s caps k res h
    exact ⟨s1, caps, hs1, rfl, hk⟩
  | seq a b iha ihb =>
    intro s caps k res h
    obtain ⟨s1, caps1, hl1, hc1, h1⟩ := iha s caps _ res h
    obtain ⟨s2, caps2, hl2, hc2, h2⟩ := ihb s1 caps1 k res h1
    exact ⟨s2, caps2, hl2.trans hl1, hc2.trans hc1, h2⟩
  | alt a b iha ihb =>
    intro s caps k res h
    rw [run_alt] at h
    cases ha : a.run s caps k with
    | some r =>
      rw [ha] at h
      apply iha s caps k res
      rw [ha]
      simpa using h
    | none =>
      rw [ha] at h
      exact ihb s caps k res h
  | group i r ih =>
    intro s caps k res h
    obtain ⟨s1, caps1, hl1, hc1, h1⟩ := ih s caps _ res h
    exact ⟨s1, _, hl1, by rw [List.length_set, hc1], h1⟩
  | look r ih =>
    intro s caps k res h
    rw [run_look] at h
    cases hr : r.run s caps accept with
    | some x =>
      rw [hr] at h
      obtain ⟨s1, caps1, -, hc1, h1⟩ := ih s caps accept x hr
      simp only [accept, Option.some.injEq] at h1
      refine ⟨s, x.2, List.suffix_refl _, ?_, h⟩
      rw [← h1]
      exact hc1
    | none =>
      rw [hr] at h
      simp at h
  | eos =>
    intro s caps k res h
    cases s with
    | nil => exact ⟨[], caps, List.suffix_refl _, rfl, by simpa [Regex.run] using h⟩
    | cons d ds => simp [Regex.run] at h

/-- A successful run of a concatenation passes through each of its points. -/
theorem run_cat_split (P L : List Regex) : ∀ (s : Text) (caps : Caps) (k : Cont)
    (res : MatchResult), (Regex.cat (P ++ L)).run s caps k = some res →
    ∃ s1 caps1, s1 <:+ s ∧ caps1.length = caps.length ∧
      (Regex.cat L).run s1 caps1 k = some res := by
  induction P with
  | nil => exact fun s caps k res h => ⟨s, caps, List.suffix_refl _, rfl, h⟩
  | cons r P ih =>
    intro s caps k res h
    simp only [List.cons_append, Regex.cat] at h
    rw [run_seq] at h
    obtain ⟨s1, caps1, hl1, hc1, h1⟩ := run_suffix r s caps _ res h
    obtain ⟨s2, caps2, hl2, hc2, h2⟩ := ih s1 caps1 k res h1
    exact ⟨s2, caps2, hl2.trans hl1, hc2.trans hc1, h2⟩

theorem exec_run (r : Regex) (s : Text) (res : MatchResult) (h : exec r s = some res) :
    ∃ s1, s1 <:+ s ∧ r.run s1 noCaps accept = some res := by
  induction s with
  | nil => exact ⟨[], List.suffix_refl _, by simpa [exec] using h⟩
  | cons c cs ih =>
    simp only [exec] at h
    cases hr : r.run (c :: cs) noCaps accept with
    | some x =>
      rw [hr] at h
      simp only [Option.some.injEq] at h
      exact ⟨c :: cs, List.suffix_refl _, by rw [hr, h]⟩
    | none =>
      rw [hr] at h
      obtain ⟨s1, hs1, h1⟩ := ih h
      exact ⟨s1, hs1.trans (List.suffix_cons c cs), h1⟩

/-! ## Counting non-overlapping occurrences -/

theorem countFrom_cons (m : Text) (skip : Nat) (c : Char) (cs : Text) :
    countFrom m skip (c :: cs) =
      if skip = 0 ∧ m.isPrefixOf (c :: cs) = true then 1 + countFrom m (m.length - 1) cs
      else countFrom m (skip - 1) cs := rfl

/-- Starting the count up to one marker length later loses at most one occurrence and
gains none. -/
theorem countFrom_shift (m : Text) (s : Text) : ∀ k j, j ≤ m.length →
    countFrom m (k + j) s ≤ countFrom m k s ∧ countFrom m k s ≤ countFrom m (k + j) s + 1 := by
  induction s with
  | nil => intro k j _; simp [countFrom]
  | cons c cs ih =>
    intro k j hj
    cases k with
    | succ k1 =>
      have h1 : ¬ (k1 + 1 = 0 ∧ m.isPrefixOf (c :: cs) = true) := by simp
      have h2 : ¬ (k1 + 1 + j = 0 ∧ m.isPrefixOf (c :: cs) = true) := by omega
      rw [countFrom_cons, countFrom_cons, if_neg h1, if_neg h2]
      have h3 : k1 + 1 + j - 1 = k1 + j := by omega
      rw [h3, Nat.add_sub_cancel]
      exact ih k1 j hj
    | zero =>
      cases j with
      | zero => simp
      | succ j1 =>
        have h2 : ¬ (0 + (j1 + 1) = 0 ∧ m.isPrefixOf (c :: cs) = true) := by omega
        rw [countFrom_cons m (0 + (j1 + 1)), if_neg h2]
        have h3 : 0 + (j1 + 1) - 1 = j1 := by omega
        rw [h3, countFrom_cons]
        by_cases hm : m.isPrefixOf (c :: cs) = true
        · rw [if_pos ⟨rfl, hm⟩]
          have hih := ih j1 (m.length - 1 - j1) (by omega)
          have h4 : j1 + (m.length - 1 - j1) = m.length - 1 := by omega
          rw [h4] at hih
          omega
        · have h5 : ¬ (0 = 0 ∧ m.isPrefixOf (c :: cs) = true) := fun h => hm h.2
          rw [if_neg h5]
          have hih := ih 0 j1 (by omega)
          simp only [Nat.zero_add, Nat.zero_sub] at hih ⊢
          exact hih

theorem countFrom_drop (m : Text) (b : Text) (y : Text) : ∀ k, k ≤ y.length →
    countFrom m 0 b ≤ countFrom m k (y ++ b) := by
  induction y with
  | nil =>
    intro k hk
    have : k = 0 := by simpa using hk
    rw [this]
    exact le_refl _
  | cons c y ih =>
    intro k hk
    cases k with
    | succ k1 =>
      have h1 : ¬ (k1 + 1 = 0 ∧ m.isPrefixOf (c :: (y ++ b)) = true) := by simp
      rw [List.cons_append, countFrom_cons, if_neg h1, Nat.add_sub_cancel]
      exact ih k1 (by simpa using hk)
    | zero =>
      rw [List.cons_append, countFrom_cons]
      have h0 := ih 0 (Nat.zero_le _)
      by_cases hm : m.isPrefixOf (c :: (y ++ b)) = true
      · rw [if_pos ⟨rfl, hm⟩]
        have hs := (countFrom_shift m (y ++ b) 0 (m.length - 1) (by omega)).2
        simp only [Nat.zero_add] at hs
        omega
      · have h5 : ¬ (0 = 0 ∧ m.isPrefixOf (c :: (y ++ b)) = true) := fun h => hm h.2
        rw [if_neg h5]
        exact h0

theorem countFrom_skip (m : Text) (b : Text) (y : Text) :
    countFrom m y.length (y ++ b) = countFrom m 0 b := by
  induction y with
  | nil => rfl
  | cons c y ih =>
    have h1 : ¬ ((c :: y).length = 0 ∧ m.isPrefixOf (c :: (y ++ b)) = true) := by simp
    rw [List.cons_append, countFrom_cons, if_neg h1]
    simpa using ih

/-- An occurrence of the marker followed by `b` counts one more than `b`. -/
theorem countFrom_occurrence (m : Text) (hm : m ≠ []) (b : Text) (a : Text) :
    1 + countFrom m 0 b ≤ countFrom m 0 (a ++ (m ++ b)) := by
  induction a with
  | nil =>
    cases m with
    | nil => exact absurd rfl hm
    | cons c m1 =>
      have hp : (c :: m1).isPrefixOf (c :: (m1 ++ b)) = true := by
        rw [List.isPrefixOf_iff_prefix]
        exact List.prefix_append (c :: m1) b
      rw [List.nil_append, List.cons_append, countFrom_cons, if_pos ⟨rfl, hp⟩]
      have : (c :: m1).length - 1 = m1.length := by simp
      rw [this, countFrom_skip]
  | cons c a ih =>
    rw [List.cons_append, countFrom_cons]
    by_cases hp : m.isPrefixOf (c :: (a ++ (m ++ b))) = true
    · rw [if_pos ⟨rfl, hp⟩]
      have hd := countFrom_drop m b (a ++ m) (m.length - 1) (by simp; omega)
      rw [List.append_assoc] at hd
      omega
    · have h5 : ¬ (0 = 0 ∧ m.isPrefixOf (c :: (a ++ (m ++ b))) = true) := fun h => hp h.2
      rw [if_neg h5]
      exact ih

/-! ## Every match holds a description marker -/

theorem run_str_cat (m : Text) (L : List Regex) (s : Text) (caps : Caps) (k : Cont)
    (res : MatchResult) (h : (Regex.cat (Regex.str m :: L)).run s caps k = some res) :
    ∃ s2, s = m ++ s2 ∧ (Regex.cat L).run s2 caps k = some res := by
  simp only [Regex.cat] at h
  rw [run_seq] at h
  by_cases hp : m.isPrefixOf s = true
  · obtain ⟨s2, hs2⟩ := List.isPrefixOf_iff_prefix.1 hp
    subst hs2
    rw [run_str_append] at h
    exact ⟨s2, rfl, h⟩
  · rw [run_str_none m s caps _ (Bool.eq_false_iff.2 hp)] at h
    simp at h

theorem markdownRegex_parts :
    markdownRegex =
      Regex.cat ([.str "**".toList, .group 1 (.seq (.cls .digit) (.star .digit)), .char '.',
        .star .space, .str "Title:**".toList,
        .star .space, .group 2 (.lazyStar .any),
        .star .space, .str "**Difficulty:**".toList,
        .star .space, .group 3 (.lazyStar .any),
        .star .space, .str "**Concepts:**".toList,
        .star .space, .group 4 (.lazyStar .any),
        .star .space] ++
        (Regex.str "**Description:**".toList ::
          [.star .space, .group 5 (.lazyStar .any), .look (.alt blockStart .eos)])) := rfl

/-- What a match of `markdownRegex` passes through: the description marker, then the
last stage of the pattern, which ends the match. -/
theorem markdownRegex_run_stages (s rest : Text) (caps : Caps)
    (h : markdownRegex.run s noCaps accept = some (rest, caps)) :
    ∃ a s2 caps1, s = a ++ ("**Description:**".toList ++ s2) ∧ caps1.length = 6 ∧
      (Regex.cat [.star .space, .group 5 (.lazyStar .any),
        .look (.alt blockStart .eos)]).run s2 caps1 accept = some (rest, caps) := by
  rw [markdownRegex_parts] at h
  obtain ⟨s1, caps1, hs1, hc1, h1⟩ := run_cat_split _ _ s noCaps accept _ h
  obtain ⟨s2, hs2, h2⟩ := run_str_cat _ _ s1 caps1 accept _ h1
  obtain ⟨a, ha⟩ := hs1
  refine ⟨a, s2, caps1, ?_, ?_, h2⟩
  · rw [← ha, hs2]
  · rw [hc1]
    rfl

theorem markdownRegex_run_marker (s rest : Text) (caps : Caps)
    (h : markdownRegex.run s noCaps accept = some (rest, caps)) :
    ∃ a b, s = a ++ ("**Description:**".toList ++ b) ∧ rest <:+ b := by
  obtain ⟨a, s2, caps1, hs, -, h2⟩ := markdownRegex_run_stages s rest caps h
  obtain ⟨s3, caps3, hs3, -, h3⟩ := run_suffix _ s2 caps1 accept _ h2
  simp only [accept, Option.some.injEq, Prod.mk.injEq] at h3
  exact ⟨a, s2, hs, by rw [← h3.1]; exact hs3⟩

theorem exec_marker (s rest : Text) (caps : Caps)
    (h : exec markdownRegex s = some (rest, caps)) :
    ∃ a b, s = a ++ ("**Description:**".toList ++ b) ∧ rest <:+ b := by
  obtain ⟨s1, ⟨pre, hpre⟩, h1⟩ := exec_run _ s _ h
  obtain ⟨a, b, hab, hrest⟩ := markdownRegex_run_marker s1 rest caps h1
  exact ⟨pre ++ a, b, by rw [← hpre, hab, List.append_assoc], hrest⟩

theorem exec_count (s rest : Text) (caps : Caps)
    (h : exec markdownRegex s = some (rest, caps)) :
    1 + countOccurrences "**Description:**".toList rest ≤
      countOccurrences "**Description:**".toList s := by
  obtain ⟨a, b, hab, ⟨x, hx⟩⟩ := exec_marker s rest caps h
  have h1 := countFrom_occurrence "**Description:**".toList (by decide) b a
  have h2 := countFrom_drop "**Description:**".toList rest x 0 (Nat.zero_le _)
  rw [hx] at h2
  unfold countOccurrences
  rw [hab]
  omega

theorem parseLoop_count (fuel : Nat) : ∀ (s : Text) (qs : List Question),
    parseLoop fuel s = some qs → qs.length ≤ countOccurrences "**Description:**".toList s := by
  induction fuel with
  | zero => intro s qs h; simp [parseLoop] at h
  | succ n ih =>
    intro s qs h
    simp only [parseLoop] at h
    cases he : exec markdownRegex s with
    | none =>
      rw [he] at h
      simp only [Option.some.injEq] at h
      rw [← h]
      exact Nat.zero_le _
    | some x =>
      obtain ⟨rest, caps⟩ := x
      rw [he] at h
      simp only [Option.map_eq_some'] at h
      obtain ⟨qs1, hqs1, rfl⟩ := h
      have h1 := ih rest qs1 hqs1
      have h2 := exec_count s rest caps he
      simp only [List.length_cons]
      omega

theorem exec_suffix (s rest : Text) (caps : Caps)
    (h : exec markdownRegex s = some (rest, caps)) : rest <:+ s := by
  obtain ⟨a, b, hab, hrest⟩ := exec_marker s rest caps h
  rw [hab, ← List.append_assoc]
  exact hrest.trans (List.suffix_append _ _)

/-- C17: `parseAIPlan` returns on every text; every match of the template ends at a
later position than the position the search started from, so each turn of the loop
continues on a strictly shorter rest of the text; and the number of entries is at most
the number of non-overlapping occurrences of `**Description:**` in the text. -/
theorem parseAIPlan_terminates (t : Text) :
    (∃ qs, parseAIPlan t = some qs ∧
      qs.length ≤ countOccurrences "**Description:**".toList t) ∧
    ∀ (s rest : Text) (caps : Caps), exec markdownRegex s = some (rest, caps) →
      rest <:+ s ∧ rest.length < s.length := by
  constructor
  · obtain ⟨qs, hqs⟩ := parseAIPlan_total t
    exact ⟨qs, hqs, parseLoop_count _ t qs hqs⟩
  · intro s rest caps h
    exact ⟨exec_suffix s rest caps h, exec_shorter s rest caps h⟩

/-- Witness of C17: a text with three occurrences of the marker and one block. -/
theorem parseAIPlan_terminates_witness :
    countOccurrences "**Description:**".toList markerText = 3 ∧
    ∃ qs, parseAIPlan markerText = some qs ∧
      qs.length ≤ countOccurrences "**Description:**".toList markerText :=
  ⟨by decide!, (parseAIPlan_terminates markerText).1⟩

/-! ## Shape of the parsed entries -/

theorem trim_trimmed (s : Text) : Trimmed (trim s) := by
  constructor
  · intro c hc
    have hpre : trim s <+: s.dropWhile isSpace := List.rdropWhile_prefix _ _
    obtain ⟨t, ht⟩ := hpre
    cases htr : trim s with
    | nil => simp [htr] at hc
    | cons x xs =>
      rw [htr] at hc ht
      simp only [List.head?_cons, Option.some.injEq] at hc
      have hne : s.dropWhile isSpace ≠ [] := by
        rw [← ht]
        simp
      have hhead := List.head_dropWhile_not isSpace s hne
      have hx : (s.dropWhile isSpace).head hne = x := by
        simp [← ht]
      rw [hx, hc] at hhead
      exact hhead
  · intro c hc
    cases htr : trim s with
    | nil => simp [htr] at hc
    | cons x xs =>
      have hne : trim s ≠ [] := by simp [htr]
      have hlast := trim_last s hne
      rw [List.getLast?_eq_getLast _ hne] at hc
      simp only [Option.some.injEq] at hc
      rw [hc] at hlast
      exact hlast

theorem mem_trim (c : Char) (s : Text) (h : c ∈ trim s) : c ∈ s := by
  have h1 : trim s <+: s.dropWhile isSpace := List.rdropWhile_prefix _ _
  have h2 : s.dropWhile isSpace <:+ s := List.dropWhile_suffix _
  exact h2.subset (h1.subset h)

theorem split_no_sep (sep : Char) (s : Text) : ∀ p ∈ split sep s, sep ∉ p := by
  induction s with
  | nil => simp [split]
  | cons c cs ih =>
    intro p hp
    simp only [split] at hp
    by_cases hc : c = sep
    · rw [if_pos hc] at hp
      rcases List.mem_cons.1 hp with rfl | hp1
      · simp
      · exact ih p hp1
    · rw [if_neg hc] at hp
      cases hsp : split sep cs with
      | nil => exact absurd hsp (split_ne_nil _ _)
      | cons q qs =>
        rw [hsp] at hp ih
        rcases List.mem_cons.1 hp with rfl | hp1
        · intro hmem
          rcases List.mem_cons.1 hmem with h | h
          · exact hc h.symm
          · exact ih q (List.mem_cons_self _ _) h
        · exact ih p (List.mem_cons_of_mem _ hp1)

theorem blockMarkerAt_mono (u rest : Text) (h : blockMarkerAt u = true) :
    blockMarkerAt (u ++ rest) = true := by
  match u with
  | [] => simp [blockMarkerAt] at h
  | [a] => simp [blockMarkerAt] at h
  | [a, b] => simp [blockMarkerAt] at h
  | a :: b :: d :: y =>
    simp only [blockMarkerAt, Bool.and_eq_true, beq_iff_eq] at h
    obtain ⟨⟨⟨ha, hb⟩, hd⟩, hdot⟩ := h
    have hy : ((y ++ rest).dropWhile isDigit).head? = some '.' := by
      rw [List.dropWhile_append]
      cases hdw : List.dropWhile isDigit y with
      | nil => simp [hdw] at hdot
      | cons e es =>
        rw [hdw] at hdot
        simpa using hdot
    simp [blockMarkerAt, ha, hb, hd, hy]

theorem hasBlockMarker_of_suffixes (w : Text)
    (h : ∀ a b, w = a ++ b → b ≠ [] → blockMarkerAt b = false) : hasBlockMarker w = false := by
  induction w with
  | nil => rfl
  | cons c cs ih =>
    have h1 := h [] (c :: cs) rfl (List.cons_ne_nil _ _)
    have h2 := ih (fun a b hab hb => h (c :: a) b (by rw [hab]; rfl) hb)
    simp [hasBlockMarker, h1, h2]

theorem hasBlockMarker_infix (a x b : Text) (h : hasBlockMarker (a ++ (x ++ b)) = false) :
    hasBlockMarker x = false := by
  apply hasBlockMarker_of_suffixes
  intro p u hpu hu
  rw [Bool.eq_false_iff]
  intro hm
  have hmono := blockMarkerAt_mono u b hm
  have hsuf := hasBlockMarker_suffix (a ++ p) (u ++ b)
    (by rw [List.append_assoc, ← List.append_assoc p, ← hpu]; exact h) (by simp [hu])
  rw [hmono] at hsuf
  exact absurd hsuf (by decide)

theorem hasBlockMarker_trim (w : Text) (h : hasBlockMarker w = false) :
    hasBlockMarker (trim w) = false := by
  apply hasBlockMarker_infix (w.takeWhile isSpace) (trim w)
    ((w.dropWhile isSpace).rtakeWhile isSpace)
  have h1 : trim w ++ (w.dropWhile isSpace).rtakeWhile isSpace = w.dropWhile isSpace :=
    rdropWhile_append_rtakeWhile isSpace (w.dropWhile isSpace)
  rw [h1, List.takeWhile_append_dropWhile]
  exact h


/-- The lazy scan of the description, read backwards: where it stopped is the first
position at which the lookahead holds. -/
theorem starLazy_desc_inv (caps : Caps) (s0 : Text) (res : MatchResult) (u : Text) :
    ∀ v : Text, s0 = v ++ u →
    starLazy (fun _ => true) u caps
      (fun s1 caps1 => (Regex.seq (.look (.alt blockStart .eos)) .eps).run s1
        (caps1.set 5 (s0.take (s0.length - s1.length))) accept) = some res →
    ∃ w rest, u = w ++ rest ∧ res = (rest, caps.set 5 (v ++ w)) ∧
      ∀ a b, w = a ++ b → b ≠ [] → blockMarkerAt (b ++ rest) = false := by
  induction u with
  | nil =>
    intro v hs0 h
    simp only [starLazy] at h
    rw [run_seq, look_run] at h
    simp only [blockMarkerAt, List.isEmpty_nil, Bool.or_true, if_true, Regex.run, accept,
      Option.some.injEq] at h
    refine ⟨[], [], rfl, ?_, ?_⟩
    · rw [← h, hs0]
      simp
    · intro a b hab hb
      have : b = [] := (List.append_eq_nil.1 hab.symm).2
      exact absurd this hb
  | cons c cs ih =>
    intro v hs0 h
    rw [starLazy_cons, run_seq, look_run] at h
    by_cases hm : blockMarkerAt (c :: cs) = true
    · simp only [hm, Bool.true_or, if_true, Regex.run, accept] at h
      refine ⟨[], c :: cs, rfl, ?_, ?_⟩
      · simp only [Option.some.injEq] at h
        rw [← h, hs0, take_length_sub]
        simp
      · intro a b hab hb
        have : b = [] := (List.append_eq_nil.1 hab.symm).2
        exact absurd this hb
    · have hfalse : (blockMarkerAt (c :: cs) || (c :: cs).isEmpty) = false := by
        simp [hm]
      simp only [hfalse, Bool.false_eq_true, if_false, if_true] at h
      obtain ⟨w, rest, hw, hres, hall⟩ := ih (v ++ [c]) (by rw [hs0]; simp) h
      refine ⟨c :: w, rest, by rw [hw]; rfl, by rw [hres]; simp, ?_⟩
      intro a b hab hb
      cases a with
      | nil =>
        simp only [List.nil_append] at hab
        rw [← hab, List.cons_append, ← hw]
        simpa using hm
      | cons d a1 =>
        simp only [List.cons_append, List.cons.injEq] at hab
        exact hall a1 b hab.2 hb

/-- The text captured for the description by a match holds no numbered-block marker. -/
theorem desc_stage_inv (s2 rest : Text) (caps1 caps : Caps) (hlen : caps1.length = 6)
    (h : (Regex.cat [.star .space, .group 5 (.lazyStar .any),
      .look (.alt blockStart .eos)]).run s2 caps1 accept = some (rest, caps)) :
    hasBlockMarker (caps.getD 5 []) = false := by
  simp only [Regex.cat] at h
  rw [run_seq] at h
  obtain ⟨s3, hs3, h3⟩ := starGreedy_suffix _ s2 caps1 _ _ h
  have h4 : starLazy (fun _ => true) s3 caps1
      (fun s1 c1 => (Regex.seq (.look (.alt blockStart .eos)) .eps).run s1
        (c1.set 5 (s3.take (s3.length - s1.length))) accept) = some (rest, caps) := h3
  obtain ⟨w, rest1, hw, hres, hall⟩ := starLazy_desc_inv caps1 s3 _ s3 [] rfl h4
  simp only [Prod.mk.injEq, List.nil_append] at hres
  have hget : caps.getD 5 [] = w := by
    rw [hres.2]
    match caps1, hlen with
    | [c0, c1, c2, c3, c4, c5], _ => rfl
  rw [hget]
  apply hasBlockMarker_of_suffixes
  intro a b hab hb
  rw [Bool.eq_false_iff]
  intro hm
  have h5 := hall a b hab hb
  rw [blockMarkerAt_mono b rest1 hm] at h5
  exact absurd h5 (by decide)

/-- Every entry of the parser comes from one match of the template. -/
theorem parseLoop_mem_exec (fuel : Nat) : ∀ (s : Text) (qs : List Question),
    parseLoop fuel s = some qs →
    ∀ q ∈ qs, ∃ s1 rest caps, exec markdownRegex s1 = some (rest, caps) ∧
      q = questionOfMatch caps := by
  induction fuel with
  | zero => intro s qs h; simp [parseLoop] at h
  | succ n ih =>
    intro s qs h q hq
    simp only [parseLoop] at h
    cases he : exec markdownRegex s with
    | none =>
      rw [he] at h
      simp only [Option.some.injEq] at h
      rw [← h] at hq
      simp at hq
    | some x =>
      obtain ⟨rest, caps⟩ := x
      rw [he] at h
      simp only [Option.map_eq_some'] at h
      obtain ⟨qs1, hqs1, rfl⟩ := h
      rcases List.mem_cons.1 hq with rfl | hq1
      · exact ⟨s, rest, caps, he, rfl⟩
      · exact ih rest qs1 hqs1 q hq1

/-- C18: on every text `parseAIPlan` returns, and every entry it returns has category
"Problem Solving", `completed = false`, a non-empty concepts list whose elements have no
leading or trailing white space and no comma, a title, a difficulty and a description
without leading or trailing white space, and a description that contains no
numbered-block marker `**<digits>.`. -/
theorem parseAIPlan_entries (t : Text) :
    ∃ qs, parseAIPlan t = some qs ∧
      ∀ q ∈ qs, q.category = "Problem Solving".toList ∧ q.completed = false ∧
        q.concepts ≠ [] ∧ (∀ c ∈ q.concepts, Trimmed c ∧ ',' ∉ c) ∧
        Trimmed q.title ∧ Trimmed q.difficulty ∧ Trimmed q.description ∧
        hasBlockMarker q.description = false := by
  obtain ⟨qs, hqs⟩ := parseAIPlan_total t
  refine ⟨qs, hqs, ?_⟩
  intro q hq
  obtain ⟨s1, rest, caps, he, rfl⟩ := parseLoop_mem_exec _ t qs hqs q hq
  refine ⟨rfl, rfl, questionOfMatch_concepts caps, ?_, trim_trimmed _, trim_trimmed _,
    trim_trimmed _, ?_⟩
  · intro c hc
    simp only [questionOfMatch, List.mem_map] at hc
    obtain ⟨p, hp, rfl⟩ := hc
    exact ⟨trim_trimmed p, fun hmem => split_no_sep ',' _ p hp (mem_trim ',' p hmem)⟩
  · obtain ⟨s2, -, hrun⟩ := exec_run _ s1 _ he
    obtain ⟨a, s3, caps1, -, hlen, hlast⟩ := markdownRegex_run_stages s2 rest caps hrun
    exact hasBlockMarker_trim _ (desc_stage_inv s3 rest caps1 caps hlen hlast)

/-- Witness of C18: the entry parsed from a text with three description markers. -/
theorem parseAIPlan_entries_witness :
    parseAIPlan markerText =
      some [{ title := "t".toList, difficulty := "d".toList, concepts := ["c".toList],
              description := "s **Description:** u".toList,
              category := "Problem Solving".toList, completed := false }] ∧
    ∃ qs, parseAIPlan markerText = some qs ∧
      ∀ q ∈ qs, q.category = "Problem Solving".toList ∧ q.completed = false ∧
        q.concepts ≠ [] ∧ (∀ c ∈ q.concepts, Trimmed c ∧ ',' ∉ c) ∧
        Trimmed q.title ∧ Trimmed q.difficulty ∧ Trimmed q.description ∧
        hasBlockMarker q.description = false :=
  ⟨by decide!, parseAIPlan_entries markerText⟩

end SQLPrep
